import Mathlib

/-
Verification of the hybrid vector-graph memory engine of this repository
(src/kappa/src/kappa/memkappa.py, class MemKappa, and the earlier evolution
src/kappa/src/kappa/memcore.py, class Memcore).

Modelling conventions:
* Python runtime values are modelled by the inductive type `Value`
  (None, bool, int, float-as-rational, str, list, dict).  Python floats are
  modelled exactly as rationals; float rounding is not modelled (the claims
  checked here use only values on which IEEE arithmetic is exact).
* A raised Python exception is modelled as `Except.error msg`; a structured
  error returned as a data value is an ordinary `Except.ok` value (for
  `retrieve` a `Value.dict` with an `error` entry).  `ingest` returns its
  result together with the final object state and the list of externally
  visible effects (graph-file save, vector-collection add), because the
  Python methods mutate `self.graph` / the collection in place even when an
  exception later propagates.
* The external collaborators (embedding capability, Chroma query, the json
  module) are opaque capabilities carried in `Env`, exactly as the spec
  declares them external.  `QueryResult` is the structured
  `{ids, metadatas, distances}` shape of the vector-index interface.
* The NetworkX `DiGraph` is modelled as insertion-ordered association lists
  of nodes (id to attribute dict) and edges (keyed by the (source, target)
  pair, one attribute dict per pair), which is exactly the storage shape of
  `nx.DiGraph` (`_node`, `_adj`): at most one edge per ordered pair, and
  `add_node` / `add_edge` merge attribute dicts in place.
  `add_node` with an unhashable id raises TypeError in Python; the model
  surfaces that as an error from the node-creation phase.  `has_node`
  catches TypeError and returns False, which the list model matches
  (an unhashable value is never equal to a stored hashable node id).
-/

namespace Kappa

/-- Python runtime value: None, bool, int, float (modelled as an exact
rational), str, list, dict with string keys. -/
inductive Value where
  | null
  | bool (b : Bool)
  | int (n : Int)
  | str (s : String)
  | rat (q : Rat)
  | list (xs : List Value)
  | dict (kvs : List (String × Value))

mutual

/-- Structural decidable equality for `Value` (written by hand because the
deriving handler does not support nested inductives). -/
def Value.decEq : (a b : Value) → Decidable (a = b)
  | .null, .null => isTrue rfl
  | .null, .bool _ => isFalse (fun h => Value.noConfusion h)
  | .null, .int _ => isFalse (fun h => Value.noConfusion h)
  | .null, .str _ => isFalse (fun h => Value.noConfusion h)
  | .null, .rat _ => isFalse (fun h => Value.noConfusion h)
  | .null, .list _ => isFalse (fun h => Value.noConfusion h)
  | .null, .dict _ => isFalse (fun h => Value.noConfusion h)
  | .bool _, .null => isFalse (fun h => Value.noConfusion h)
  | .bool a, .bool b =>
      if h : a = b then isTrue (by rw [h]) else isFalse (fun he => h (by cases he; rfl))
  | .bool _, .int _ => isFalse (fun h => Value.noConfusion h)
  | .bool _, .str _ => isFalse (fun h => Value.noConfusion h)
  | .bool _, .rat _ => isFalse (fun h => Value.noConfusion h)
  | .bool _, .list _ => isFalse (fun h => Value.noConfusion h)
  | .bool _, .dict _ => isFalse (fun h => Value.noConfusion h)
  | .int _, .null => isFalse (fun h => Value.noConfusion h)
  | .int _, .bool _ => isFalse (fun h => Value.noConfusion h)
  | .int a, .int b =>
      if h : a = b then isTrue (by rw [h]) else isFalse (fun he => h (by cases he; rfl))
  | .int _, .str _ => isFalse (fun h => Value.noConfusion h)
  | .int _, .rat _ => isFalse (fun h => Value.noConfusion h)
  | .int _, .list _ => isFalse (fun h => Value.noConfusion h)
  | .int _, .dict _ => isFalse (fun h => Value.noConfusion h)
  | .str _, .null => isFalse (fun h => Value.noConfusion h)
  | .str _, .bool _ => isFalse (fun h => Value.noConfusion h)
  | .str _, .int _ => isFalse (fun h => Value.noConfusion h)
  | .str a, .str b =>
      if h : a = b then isTrue (by rw [h]) else isFalse (fun he => h (by cases he; rfl))
  | .str _, .rat _ => isFalse (fun h => Value.noConfusion h)
  | .str _, .list _ => isFalse (fun h => Value.noConfusion h)
  | .str _, .dict _ => isFalse (fun h => Value.noConfusion h)
  | .rat _, .null => isFalse (fun h => Value.noConfusion h)
  | .rat _, .bool _ => isFalse (fun h => Value.noConfusion h)
  | .rat _, .int _ => isFalse (fun h => Value.noConfusion h)
  | .rat _, .str _ => isFalse (fun h => Value.noConfusion h)
  | .rat a, .rat b =>
      if h : a = b then isTrue (by rw [h]) else isFalse (fun he => h (by cases he; rfl))
  | .rat _, .list _ => isFalse (fun h => Value.noConfusion h)
  | .rat _, .dict _ => isFalse (fun h => Value.noConfusion h)
  | .list _, .null => isFalse (fun h => Value.noConfusion h)
  | .list _, .bool _ => isFalse (fun h => Value.noConfusion h)
  | .list _, .int _ => isFalse (fun h => Value.noConfusion h)
  | .list _, .str _ => isFalse (fun h => Value.noConfusion h)
  | .list _, .rat _ => isFalse (fun h => Value.noConfusion h)
  | .list xs, .list ys =>
      match Value.decEqList xs ys with
      | isTrue h => isTrue (by rw [h])
      | isFalse n => isFalse (fun he => n (by cases he; rfl))
  | .list _, .dict _ => isFalse (fun h => Value.noConfusion h)
  | .dict _, .null => isFalse (fun h => Value.noConfusion h)
  | .dict _, .bool _ => isFalse (fun h => Value.noConfusion h)
  | .dict _, .int _ => isFalse (fun h => Value.noConfusion h)
  | .dict _, .str _ => isFalse (fun h => Value.noConfusion h)
  | .dict _, .rat _ => isFalse (fun h => Value.noConfusion h)
  | .dict _, .list _ => isFalse (fun h => Value.noConfusion h)
  | .dict xs, .dict ys =>
      match Value.decEqDict xs ys with
      | isTrue h => isTrue (by rw [h])
      | isFalse n => isFalse (fun he => n (by cases he; rfl))

/-- Decidable equality for lists of values. -/
def Value.decEqList : (xs ys : List Value) → Decidable (xs = ys)
  | [], [] => isTrue rfl
  | [], _ :: _ => isFalse (fun h => List.noConfusion h)
  | _ :: _, [] => isFalse (fun h => List.noConfusion h)
  | x :: xs, y :: ys =>
      match Value.decEq x y, Value.decEqList xs ys with
      | isTrue h1, isTrue h2 => isTrue (by rw [h1, h2])
      | isFalse n, _ => isFalse (fun he => n (by cases he; rfl))
      | _, isFalse n => isFalse (fun he => n (by cases he; rfl))

/-- Decidable equality for string-keyed entry lists. -/
def Value.decEqDict : (xs ys : List (String × Value)) → Decidable (xs = ys)
  | [], [] => isTrue rfl
  | [], _ :: _ => isFalse (fun h => List.noConfusion h)
  | _ :: _, [] => isFalse (fun h => List.noConfusion h)
  | (k, x) :: xs, (l, y) :: ys =>
      match String.decEq k l, Value.decEq x y, Value.decEqDict xs ys with
      | isTrue h0, isTrue h1, isTrue h2 => isTrue (by rw [h0, h1, h2])
      | isFalse n, _, _ => isFalse (fun he => n (by cases he; rfl))
      | _, isFalse n, _ => isFalse (fun he => n (by cases he; rfl))
      | _, _, isFalse n => isFalse (fun he => n (by cases he; rfl))

end

instance : DecidableEq Value := Value.decEq

/-- Python truthiness (`bool(v)`): None, False, 0, empty string, empty list
and empty dict are falsy, everything else is truthy. -/
def pyTruthy : Value → Bool
  | .null => false
  | .bool b => b
  | .int n => decide (n ≠ 0)
  | .rat q => decide (q ≠ 0)
  | .str s => decide (s ≠ "")
  | .list xs => decide (xs ≠ [])
  | .dict kvs => decide (kvs ≠ [])

/-- Which modelled Python values are hashable: scalars are, list and dict
are not (`nx.DiGraph.add_node` raises TypeError on unhashable ids). -/
def pyHashable : Value → Bool
  | .list _ => false
  | .dict _ => false
  | _ => true

/-- Association-list model of `d.get(k)` on a Python dict: value of the
first matching key, if present. -/
def dictGet {κ α : Type} [DecidableEq κ] (d : List (κ × α)) (k : κ) : Option α :=
  (d.find? (fun e => e.1 = k)).map (fun e => e.2)

/-- Association-list model of `d[k] = v` on a Python dict: replace the
value at an existing key in place (keeping its position), else append. -/
def dictSet {κ α : Type} [DecidableEq κ] : List (κ × α) → κ → α → List (κ × α)
  | [], k, v => [(k, v)]
  | (k0, v0) :: rest, k, v =>
      if k0 = k then (k0, v) :: rest else (k0, v0) :: dictSet rest k v

/-- Association-list model of `d.update(other)` on a Python dict. -/
def dictUpdate {κ α : Type} [DecidableEq κ] (d other : List (κ × α)) : List (κ × α) :=
  other.foldl (fun acc e => dictSet acc e.1 e.2) d

/-- Model of Python `path.split(".")`: splits on every dot, keeping empty
segments, and the empty string splits to the one-element list of the empty
string (written structurally so that concrete paths evaluate inside the
kernel). -/
def splitDotAux : List Char → List Char → List String
  | [], acc => [String.mk acc.reverse]
  | c :: rest, acc =>
      if c = '.' then String.mk acc.reverse :: splitDotAux rest []
      else splitDotAux rest (c :: acc)

/-- Dot split of a whole path string. -/
def splitDot (s : String) : List String :=
  splitDotAux s.data []

/-- Walk of `MemKappa._extract_value`: one path segment at a time; a None
current value and a non-dict current value both stop the walk with None
(modelled as `Value.null`); on a dict, `current.get(part)` yields None when
the segment is missing. -/
def extractWalk : Value → List String → Value
  | v, [] => v
  | .null, _ :: _ => .null
  | .dict kvs, p :: rest => extractWalk ((dictGet kvs p).getD .null) rest
  | _, _ :: _ => .null

/-- Shallow embedding of `MemKappa._extract_value(payload, path)`: a falsy
path (None or the empty string) yields None, otherwise the path is split on
the dot and walked with `extractWalk`. -/
def extractValue (payload : Value) (path : Option String) : Value :=
  match path with
  | none => .null
  | some p => if p = "" then .null else extractWalk payload (splitDot p)

mutual

/-- Python `repr` of a value (string quoting modelled without escape
sequences, which the claims never exercise; floats are rendered as
rationals). -/
def pyRepr : Value → String
  | .null => "None"
  | .bool true => "True"
  | .bool false => "False"
  | .int n => toString n
  | .rat q => toString q
  | .str s => "\x27" ++ s ++ "\x27"
  | .list xs => "[" ++ pyReprList xs ++ "]"
  | .dict kvs => "\x7b" ++ pyReprDict kvs ++ "\x7d"

/-- Comma-separated reprs of list elements. -/
def pyReprList : List Value → String
  | [] => ""
  | [x] => pyRepr x
  | x :: xs => pyRepr x ++ ", " ++ pyReprList xs

/-- Comma-separated reprs of dict entries. -/
def pyReprDict : List (String × Value) → String
  | [] => ""
  | [(k, v)] => "\x27" ++ k ++ "\x27: " ++ pyRepr v
  | (k, v) :: kvs => "\x27" ++ k ++ "\x27: " ++ pyRepr v ++ ", " ++ pyReprDict kvs

end

/-- Python `str` of a value (containers fall back to `repr` of their
elements, exactly as in CPython). -/
def pyStr : Value → String
  | .null => "None"
  | .bool true => "True"
  | .bool false => "False"
  | .int n => toString n
  | .rat q => toString q
  | .str s => s
  | .list xs => "[" ++ pyReprList xs ++ "]"
  | .dict kvs => "\x7b" ++ pyReprDict kvs ++ "\x7d"

/-- JSON string escaping (quote and backslash; further escapes are not
exercised by the claims). -/
def jsonEscape (s : String) : String :=
  s.foldl (fun acc c =>
    acc ++ (if c = '"' then "\\\"" else if c = '\\' then "\\\\" else String.singleton c)) ""

mutual

/-- Model of `json.dumps` with default separators, as used for the
`graph_nodes` metadata field and for container text fields. -/
def jsonDumps : Value → String
  | .null => "null"
  | .bool true => "true"
  | .bool false => "false"
  | .int n => toString n
  | .rat q => toString q
  | .str s => "\"" ++ jsonEscape s ++ "\""
  | .list xs => "[" ++ jsonDumpsList xs ++ "]"
  | .dict kvs => "\x7b" ++ jsonDumpsDict kvs ++ "\x7d"

/-- Comma-separated JSON serialization of list elements. -/
def jsonDumpsList : List Value → String
  | [] => ""
  | [x] => jsonDumps x
  | x :: xs => jsonDumps x ++ ", " ++ jsonDumpsList xs

/-- Comma-separated JSON serialization of dict entries. -/
def jsonDumpsDict : List (String × Value) → String
  | [] => ""
  | [(k, v)] => "\"" ++ jsonEscape k ++ "\": " ++ jsonDumps v
  | (k, v) :: kvs => "\"" ++ jsonEscape k ++ "\": " ++ jsonDumps v ++ ", " ++ jsonDumpsDict kvs

end

/-- Attribute dict of a graph node or edge. -/
abbrev Attrs := List (String × Value)

/-- Model of `nx.DiGraph`: insertion-ordered node map (id to attribute
dict) and edge map keyed by the ordered (source, target) pair, one
attribute dict per pair. -/
structure DiGraph where
  nodes : List (Value × Attrs)
  edges : List ((Value × Value) × Attrs)
deriving DecidableEq

/-- The fresh graph produced by `MemKappa._load_graph` when no graph file
exists yet. -/
def emptyGraph : DiGraph := ⟨[], []⟩

/-- Model of `G.has_node(n)` (also of `n in G.nodes`). -/
def hasNode (g : DiGraph) (v : Value) : Bool :=
  (dictGet g.nodes v).isSome

/-- Model of `G.add_node(n, **attrs)`: insert a new node at the end, or
merge the attribute dict into an existing node in place. -/
def addNode (g : DiGraph) (nodeId : Value) (attrs : Attrs) : DiGraph :=
  match dictGet g.nodes nodeId with
  | some old => { g with nodes := dictSet g.nodes nodeId (dictUpdate old attrs) }
  | none => { g with nodes := g.nodes ++ [(nodeId, attrs)] }

/-- Model of `G.add_edge(u, v, **attrs)`: missing endpoints are added as
attribute-less nodes, then the single edge dict for the ordered pair (u, v)
is created or merged in place. -/
def addEdge (g : DiGraph) (u v : Value) (attrs : Attrs) : DiGraph :=
  let g1 := if hasNode g u then g else { g with nodes := g.nodes ++ [(u, [])] }
  let g2 := if hasNode g1 v then g1 else { g1 with nodes := g1.nodes ++ [(v, [])] }
  match dictGet g2.edges (u, v) with
  | some old => { g2 with edges := dictSet g2.edges (u, v) (dictUpdate old attrs) }
  | none => { g2 with edges := g2.edges ++ [((u, v), attrs)] }

/-- Declarative node spec of an ingestor (`id` is the call-local alias,
`key` the dot-path supplying the node identity). -/
structure NodeSpec where
  id : Option String
  key : Option String
  type : Option String
  attributes : List (String × String)
deriving DecidableEq

/-- Declarative edge spec of an ingestor: `source`/`target` name an alias
of this call, `sourceKey`/`targetKey` a dot-path to ids of pre-existing
nodes; the alias field takes precedence when both are present, matching
the if/elif in `_update_graph`. -/
structure EdgeSpec where
  label : Option String
  source : Option String
  sourceKey : Option String
  target : Option String
  targetKey : Option String
deriving DecidableEq

/-- Graph section of an ingestor spec. -/
structure GraphSpec where
  nodes : List NodeSpec
  edges : List EdgeSpec
deriving DecidableEq

/-- Vector section of an ingestor spec. -/
structure VectorSpec where
  textFields : List String
  metadata : List (String × String)
deriving DecidableEq

/-- One named ingestor definition from the YAML config. -/
structure IngestorSpec where
  vector : VectorSpec
  graph : GraphSpec
deriving DecidableEq

/-- Model of `MemKappa._build_text`: extract each configured text field,
drop the misses, serialize containers with `json.dumps` and scalars with
`str`, join with newlines (the empty list joins to the empty string). -/
def buildText (fields : List String) (payload : Value) : String :=
  String.intercalate "\n"
    (fields.filterMap (fun field =>
      match extractValue payload (some field) with
      | .null => none
      | .list xs => some (jsonDumps (.list xs))
      | .dict kvs => some (jsonDumps (.dict kvs))
      | v => some (pyStr v)))

/-- Metadata dict of a vector record. -/
abbrev Metadata := List (String × Value)

/-- Model of `MemKappa._build_metadata`: store each configured key whose
dot-path resolves to a non-None value, then always set `namespace`. -/
def buildMetadata (mapping : List (String × String)) (payload : Value) (ns : String) : Metadata :=
  dictSet
    (mapping.foldl (fun acc kp =>
      match extractValue payload (some kp.2) with
      | .null => acc
      | v => dictSet acc kp.1 v) [])
    "namespace" (.str ns)

/-- Alias map built by one `_update_graph` call (`new_node_ids_by_alias`). -/
abbrev AliasMap := List (String × Value)

/-- Attribute dict for a new node: every declared attribute whose dot-path
resolves to a non-None value, then the `type` entry (defaulting to the
alias), exactly as the dict comprehension plus the `type` assignment. -/
def nodeAttrsOf (nspec : NodeSpec) (payload : Value) (aliasName : String) : Attrs :=
  dictSet
    (nspec.attributes.foldl (fun acc ap =>
      match extractValue payload (some ap.2) with
      | .null => acc
      | v => dictSet acc ap.1 v) [])
    "type" (.str (nspec.type.getD aliasName))

/-- One iteration of the node-creation loop of `_update_graph`: skip the
spec when the alias or the extracted node id is falsy; raise TypeError
when the id is unhashable (Python `add_node` would); otherwise upsert the
node and record the alias. -/
def applyNodeSpec (payload : Value) (g : DiGraph) (am : AliasMap) (nspec : NodeSpec) :
    DiGraph × AliasMap × Option String :=
  match nspec.id with
  | none => (g, am, none)
  | some a =>
    let nodeId := extractValue payload nspec.key
    if a = "" ∨ pyTruthy nodeId = false then (g, am, none)
    else if pyHashable nodeId = false then (g, am, some "TypeError: unhashable type")
    else (addNode g nodeId (nodeAttrsOf nspec payload a), dictSet am a nodeId, none)

/-- Node-creation phase of `_update_graph`, stopping at the first raised
TypeError (the partially mutated graph is kept, as the Python object is
mutated in place). -/
def runNodeSpecs (payload : Value) :
    List NodeSpec → DiGraph → AliasMap → DiGraph × AliasMap × Option String
  | [], g, am => (g, am, none)
  | nspec :: rest, g, am =>
    match applyNodeSpec payload g am nspec with
    | (g1, am1, none) => runNodeSpecs payload rest g1 am1
    | (g1, am1, some e) => (g1, am1, some e)

/-- Endpoint resolution of `_update_graph` for one side of an edge: an
alias must be present in this call's alias map; a key path resolving to a
list keeps exactly the elements already present in the graph; a scalar is
kept when truthy and already present; anything else gives the empty set. -/
def resolveEndpoint (payload : Value) (g : DiGraph) (am : AliasMap)
    (aliasOpt keyOpt : Option String) : List Value :=
  match aliasOpt with
  | some a =>
    match dictGet am a with
    | some nid => [nid]
    | none => []
  | none =>
    match keyOpt with
    | some kp =>
      match extractValue payload (some kp) with
      | .list xs => xs.filter (fun s => hasNode g s)
      | v => if pyTruthy v && hasNode g v then [v] else []
    | none => []

/-- One iteration of the edge-creation loop of `_update_graph`: resolve
both endpoint sets, skip the edge when either is empty, otherwise add one
labelled edge per pair of the Cartesian product (with the final truthiness
safety check of the source). -/
def applyEdgeSpec (payload : Value) (am : AliasMap) (g : DiGraph) (espec : EdgeSpec) : DiGraph :=
  let label := espec.label.getD "RELATED_TO"
  let sources := resolveEndpoint payload g am espec.source espec.sourceKey
  let targets := resolveEndpoint payload g am espec.target espec.targetKey
  if sources = [] ∨ targets = [] then g
  else
    sources.foldl (fun gAcc s =>
      targets.foldl (fun gAcc2 t =>
        if pyTruthy s && pyTruthy t then addEdge gAcc2 s t [("label", .str label)]
        else gAcc2) gAcc) g

/-- Shallow embedding of `MemKappa._update_graph` (without the trailing
`_save_graph`, which `ingest` records as an effect): the node phase runs
first and may raise, then the edge phase folds over the edge specs. -/
def updateGraph (g : DiGraph) (gspec : GraphSpec) (payload : Value) :
    DiGraph × AliasMap × Option String :=
  match runNodeSpecs payload gspec.nodes g [] with
  | (g1, am, some e) => (g1, am, some e)
  | (g1, am, none) => (gspec.edges.foldl (applyEdgeSpec payload am) g1, am, none)

/-- Embedding vector. -/
abbrev Emb := List Rat

/-- One record stored in the vector collection by `collection.add`. -/
structure VectorRecord where
  id : String
  embedding : Emb
  metadata : Metadata
deriving DecidableEq

/-- Externally visible write effects of one `ingest` call, in order. -/
inductive Effect where
  | saveGraph (g : DiGraph)
  | vectorAdd (record : VectorRecord)
deriving DecidableEq

/-- Mutable per-namespace state: the in-memory graph and the vector
collection contents. -/
structure MemState where
  graph : DiGraph
  vector : List VectorRecord
deriving DecidableEq

/-- Structured result of the external vector-index query capability
(`{ids, metadatas, distances}`, one row per query embedding; `distances`
is absent when the key is missing from the result dict). -/
structure QueryResult where
  ids : List (List String)
  metadatas : List (List Metadata)
  distances : Option (List (List (Option Rat)))

/-- Construction-time environment of one MemKappa instance: namespace,
loaded ingestor table, and the external capabilities (embedding, vector
query, `json.loads`). -/
structure Env where
  ns : String
  ingestors : List (String × IngestorSpec)
  embed : String → Except String Emb
  query : Emb → Nat → Except String QueryResult
  jsonLoads : String → Except Unit Value

/-- The id part of the graph-only sentinel, modelling the inline Python
conditional `list(graph_nodes.values())[0] if graph_nodes else "unknown"`
interpolated through `str`: the id recorded for the first alias of the
call, or the literal `unknown` when no alias was recorded. -/
def sentinelTail (gm : AliasMap) : String :=
  match gm with
  | [] => "unknown"
  | e0 :: _ => pyStr e0.2

/-- Shallow embedding of `MemKappa.ingest`.  Returns the call result
(`Except.error` models a raised exception), the final state, and the list
of externally visible effects in program order.  An unknown ingestor name
raises ValueError before any mutation; the graph update (with its save)
happens before the vector add; an empty text blob returns the graph-only
sentinel without touching the vector collection; the embedding call is not
guarded by any try/except, so its failure propagates after the graph was
already updated and saved. -/
def ingest (env : Env) (st : MemState) (ingestor : String) (payload : Value) (uuid : String) :
    Except String String × MemState × List Effect :=
  match dictGet env.ingestors ingestor with
  | none =>
    (.error ("Ingestor " ++ ingestor ++ " is not defined for " ++ env.ns), st, [])
  | some spec =>
    let textBlob := buildText spec.vector.textFields payload
    let metadata0 := buildMetadata spec.vector.metadata payload env.ns
    match updateGraph st.graph spec.graph payload with
    | (g1, _, some e) => (.error e, { st with graph := g1 }, [])
    | (g1, graphNodes, none) =>
      let metadata := dictSet metadata0 "graph_nodes" (.str (jsonDumps (.dict graphNodes)))
      let memoryId := "mem_" ++ env.ns ++ "_" ++ uuid
      let st1 := { st with graph := g1 }
      if textBlob = "" then
        (.ok ("graph_only_entry:" ++ sentinelTail graphNodes), st1, [.saveGraph g1])
      else
        match env.embed textBlob with
        | .error e => (.error e, st1, [.saveGraph g1])
        | .ok emb =>
          let record : VectorRecord := ⟨memoryId, emb, metadata⟩
          (.ok memoryId, ⟨g1, st.vector ++ [record]⟩, [.saveGraph g1, .vectorAdd record])

/-- Shallow embedding of `MemKappa._distance_to_similarity`: None maps to
None, a distance d maps to `max(0, min(1, 1 - d/2))`. -/
def distanceToSimilarity : Option Rat → Option Rat
  | none => none
  | some d => some (max 0 (min 1 (1 - d / 2)))

/-- The inline similarity computation of `Memcore.retrieve`: similarity is
None unless a distance is present, in which case it is
`max(0.0, min(1.0, 1.0 - distance / 2.0))`. -/
def memcoreSimilarity (distance : Option Rat) : Option Rat :=
  match distance with
  | none => none
  | some d => some (max 0 (min 1 (1 - d / 2)))

/-- Python list indexing (`xs[i]`), raising IndexError out of range. -/
def pyIndex {α : Type} (xs : List α) (i : Nat) : Except String α :=
  match xs[i]? with
  | some x => .ok x
  | none => .error "IndexError: list index out of range"

/-- The `graph_nodes` decoding step of `MemKappa.retrieve`: a string field
is parsed with `json.loads` (a decode error is caught and yields the empty
dict); any other falsy field yields the empty dict; a truthy non-string
field is used as is. -/
def decodeGraphNodes (loads : String → Except Unit Value) (metadata : Metadata) : Value :=
  match (dictGet metadata "graph_nodes").getD (Value.dict []) with
  | .str s =>
    match loads s with
    | .ok v => v
    | .error _ => .dict []
  | v => if pyTruthy v then v else .dict []

/-- Outgoing-neighbor records of `_build_graph_context`, one per adjacency
entry of the node. -/
def neighborRecordsOut (g : DiGraph) (nid : Value) : List Value :=
  (g.edges.filter (fun e => e.1.1 = nid)).map (fun e =>
    .dict [("label", (dictGet e.2 "label").getD .null),
           ("target_id", e.1.2),
           ("target_type", (dictGet ((dictGet g.nodes e.1.2).getD []) "type").getD (.str "Unknown"))])

/-- Incoming-neighbor records of `_build_graph_context`, one per
predecessor entry of the node. -/
def neighborRecordsIn (g : DiGraph) (nid : Value) : List Value :=
  (g.edges.filter (fun e => e.1.2 = nid)).map (fun e =>
    .dict [("label", (dictGet e.2 "label").getD .null),
           ("source_id", e.1.1),
           ("source_type", (dictGet ((dictGet g.nodes e.1.1).getD []) "type").getD (.str "Unknown"))])

/-- One context entry of `_build_graph_context`: the node attribute dict
with a `neighbors` entry holding the outgoing and incoming records. -/
def contextEntry (g : DiGraph) (nid : Value) : Value :=
  .dict (dictSet ((dictGet g.nodes nid).getD []) "neighbors"
    (.dict [("outgoing", .list (neighborRecordsOut g nid)),
            ("incoming", .list (neighborRecordsIn g nid))]))

/-- Shallow embedding of `MemKappa._build_graph_context`: iterating the
decoded alias-to-id dict, skipping ids not present in the graph; a non-dict
argument raises AttributeError (Python `node_refs.items()`), and an
unhashable id raises TypeError (`node_id in self.graph.nodes`). -/
def buildGraphContext (g : DiGraph) (nodeRefs : Value) : Except String Value :=
  match nodeRefs with
  | .dict kvs =>
    (kvs.foldlM (fun ctx (e : String × Value) =>
        if pyHashable e.2 = false then Except.error "TypeError: unhashable type"
        else if hasNode g e.2 then Except.ok (dictSet ctx e.1 (contextEntry g e.2))
        else Except.ok ctx) ([] : List (String × Value))).map Value.dict
  | _ => .error "AttributeError: items"

/-- Per-hit loop of `MemKappa.retrieve` over `results["ids"][0]`, carrying
the running index so that metadata and distance lookups model the Python
subscripting (including the `[[None]][0][idx]` default when the distances
key is absent). -/
def retrieveLoop (env : Env) (g : DiGraph) (results : QueryResult) :
    Nat → List String → Except String (List Value)
  | _, [] => .ok []
  | idx, memoryId :: rest =>
    match pyIndex results.metadatas 0 with
    | .error e => .error e
    | .ok mrow =>
      match pyIndex mrow idx with
      | .error e => .error e
      | .ok metadata =>
        match ((match results.distances with
                | some drows =>
                  match pyIndex drows 0 with
                  | Except.error e => Except.error e
                  | Except.ok drow => pyIndex drow idx
                | none => pyIndex ([none] : List (Option Rat)) idx) :
               Except String (Option Rat)) with
        | .error e => .error e
        | .ok distance =>
          match buildGraphContext g (decodeGraphNodes env.jsonLoads metadata) with
          | .error e => .error e
          | .ok graphContext =>
            match retrieveLoop env g results (idx + 1) rest with
            | .error e => .error e
            | .ok restEntries =>
              .ok (Value.dict
                [("memory_id", .str memoryId),
                 ("metadata", .dict metadata),
                 ("graph_context", graphContext),
                 ("similarity_score",
                   match distanceToSimilarity distance with
                   | none => .null
                   | some q => .rat q)] :: restEntries)

/-- Shallow embedding of `MemKappa.retrieve`: the embedding call and the
vector-index query run inside the try/except, whose failure is returned as
a structured `error` dict; a falsy `ids` entry returns the empty dict;
otherwise the hits are assembled into a `matches` list.  The result is an
`Except`, because the post-processing after the try/except can itself
raise on malformed stored metadata. -/
def retrieve (env : Env) (g : DiGraph) (newTaskDescription : String) (nResults : Nat) :
    Except String Value :=
  match (do
      let emb ← env.embed newTaskDescription
      env.query emb nResults : Except String QueryResult) with
  | .error exc => .ok (.dict [("error", .str ("Error querying vector store: " ++ exc))])
  | .ok results =>
    match results.ids with
    | [] => .ok (.dict [])
    | ids0 :: _ =>
      (retrieveLoop env g results 0 ids0).map (fun payloads =>
        .dict [("matches", .list payloads)])

/-- Truthiness of every node id stored in a graph; the engine maintains
this invariant because `_update_graph` guards `add_node` with a truthiness
check and `add_edge` with the final safety check. -/
def truthyNodes (g : DiGraph) : Prop :=
  ∀ e ∈ g.nodes, pyTruthy e.1 = true

/-- Well-formedness of an external query result relative to the loaded
capabilities: the metadata row covers the id row, the distances row (when
the key is present) covers it too (when absent, Python evaluates
`[[None]][0][idx]`, which only exists for index 0), and every stored
`graph_nodes` field decodes to a dict of hashable ids. -/
def queryWf (env : Env) (results : QueryResult) : Prop :=
  ∀ ids0, results.ids[0]? = some ids0 →
    ∃ mrow, results.metadatas[0]? = some mrow ∧ ids0.length ≤ mrow.length ∧
      (∀ m ∈ mrow, ∃ kvs, decodeGraphNodes env.jsonLoads m = Value.dict kvs ∧
        ∀ e ∈ kvs, pyHashable e.2 = true) ∧
      (∀ drows, results.distances = some drows →
        ∃ drow, drows[0]? = some drow ∧ ids0.length ≤ drow.length) ∧
      (results.distances = none → ids0.length ≤ 1)

/-- Model of `isinstance(current, dict)` as used by the dot-path walk. -/
def isDictV : Value → Bool
  | .dict _ => true
  | _ => false

/-- Concrete ingestor used for instantiating the general theorems: one
text field `t` and one node spec with alias `n` keyed on path `k`. -/
def specNote : IngestorSpec :=
  ⟨⟨["t"], []⟩, ⟨[⟨some "n", some "k", some "T", []⟩], []⟩⟩

/-- Concrete environment with one ingestor named `note` and a working
embedding stub. -/
def envNote : Env :=
  ⟨"sem", [("note", specNote)],
   fun _ => .ok [1],
   fun _ _ => .error "unavailable",
   fun _ => .error ()⟩

/-- Concrete environment whose embedding capability always throws. -/
def envBoom : Env :=
  ⟨"sem", [("note", specNote)],
   fun _ => .error "boom",
   fun _ _ => .error "unavailable",
   fun _ => .error ()⟩

/-- Fresh per-namespace state. -/
def stEmpty : MemState := ⟨emptyGraph, []⟩

/-- Concrete graph holding the three pre-existing nodes a, b, c. -/
def graphABC : DiGraph :=
  ⟨[(.str "a", []), (.str "b", []), (.str "c", [])], []⟩

/-- Graph spec of the fan-out scenario: one new node `x` and one edge spec
whose source is a key path resolving to a list of existing ids. -/
def fanoutSpec : GraphSpec :=
  ⟨[⟨some "x", some "xk", some "T", []⟩],
   [⟨some "USES", none, some "ids", some "x", none⟩]⟩

/-- Payload of the fan-out scenario. -/
def fanoutPayload : Value :=
  .dict [("xk", .str "x"), ("ids", .list [.str "a", .str "b", .str "c"])]

/-- Concrete graph holding the two pre-existing nodes a and b. -/
def graphAB : DiGraph := ⟨[(.str "a", []), (.str "b", [])], []⟩

/-- Graph spec adding a single edge between the ids found at the key paths
`s` and `t`, with the given label. -/
def labelSpec (l : String) : GraphSpec :=
  ⟨[], [⟨some l, none, some "s", none, some "t"⟩]⟩

/-- Payload resolving the edge endpoints to the ids a and b. -/
def payloadST : Value := .dict [("s", .str "a"), ("t", .str "b")]

/- ------------------------------------------------------------------ -/
/- Association-list lemmas -/
/- ------------------------------------------------------------------ -/

theorem mem_dictSet {κ α : Type} [DecidableEq κ] (d : List (κ × α)) (k : κ) (v : α) :
    ∀ e ∈ dictSet d k v, e ∈ d ∨ e = (k, v) := by
  induction d with
  | nil => intro e he; simp [dictSet] at he; right; simp [he]
  | cons hd tl ih =>
    intro e he
    obtain ⟨k0, v0⟩ := hd
    by_cases hk : k0 = k
    · subst hk
      simp [dictSet] at he
      rcases he with he | he
      · right; simp [he]
      · left; simp [he]
    · simp [dictSet, hk] at he
      rcases he with he | he
      · left; simp [he]
      · rcases ih e he with h | h
        · left; simp [h]
        · right; exact h

theorem dictGet_dictSet_self {κ α : Type} [DecidableEq κ] (d : List (κ × α)) (k : κ) (v : α) :
    dictGet (dictSet d k v) k = some v := by
  induction d with
  | nil => simp [dictSet, dictGet]
  | cons hd tl ih =>
    obtain ⟨k0, v0⟩ := hd
    by_cases hk : k0 = k
    · subst hk; simp [dictSet, dictGet]
    · simp [dictSet, hk, dictGet, List.find?] at ih ⊢
      simpa [hk] using ih

theorem dictGet_dictSet_ne {κ α : Type} [DecidableEq κ] (d : List (κ × α)) (k k2 : κ) (v : α)
    (h : k ≠ k2) : dictGet (dictSet d k v) k2 = dictGet d k2 := by
  induction d with
  | nil => simp [dictSet, dictGet, List.find?, h]
  | cons hd tl ih =>
    obtain ⟨k0, v0⟩ := hd
    by_cases hk : k0 = k
    · subst hk
      simp [dictSet, dictGet, List.find?, h]
    · simp [dictSet, hk, dictGet, List.find?] at ih ⊢
      by_cases hk2 : k0 = k2
      · simp [hk2]
      · simpa [hk2] using ih

theorem dictSet_of_get_eq {κ α : Type} [DecidableEq κ] (d : List (κ × α)) (k : κ) (v : α)
    (h : dictGet d k = some v) : dictSet d k v = d := by
  induction d with
  | nil => simp [dictGet] at h
  | cons hd tl ih =>
    obtain ⟨k0, v0⟩ := hd
    by_cases hk : k0 = k
    · subst hk
      simp [dictGet, List.find?] at h
      simp [dictSet, h]
    · have h2 : dictGet tl k = some v := by
        unfold dictGet at h ⊢
        simpa [List.find?, hk] using h
      simp [dictSet, hk, ih h2]

theorem keys_dictSet {κ α : Type} [DecidableEq κ] (d : List (κ × α)) (k : κ) (v : α)
    (h : (dictGet d k).isSome) : (dictSet d k v).map Prod.fst = d.map Prod.fst := by
  induction d with
  | nil => simp [dictGet] at h
  | cons hd tl ih =>
    obtain ⟨k0, v0⟩ := hd
    by_cases hk : k0 = k
    · subst hk; simp [dictSet]
    · have h2 : (dictGet tl k).isSome := by
        unfold dictGet at h ⊢
        simpa [List.find?, hk] using h
      simp [dictSet, hk, ih h2]

theorem length_dictSet {κ α : Type} [DecidableEq κ] (d : List (κ × α)) (k : κ) (v : α)
    (h : (dictGet d k).isSome) : (dictSet d k v).length = d.length := by
  have := keys_dictSet d k v h
  calc (dictSet d k v).length = ((dictSet d k v).map Prod.fst).length := by simp
    _ = (d.map Prod.fst).length := by rw [this]
    _ = d.length := by simp

theorem dictGet_append_sing {κ α : Type} [DecidableEq κ] (d : List (κ × α)) (k : κ) (v : α)
    (h : dictGet d k = none) : dictGet (d ++ [(k, v)]) k = some v := by
  unfold dictGet at h ⊢
  rw [List.find?_append]
  rcases hf : d.find? (fun e => decide (e.1 = k)) with _ | e
  · simp [hf, List.find?]
  · simp [hf] at h

theorem dictGet_append_sing_ne {κ α : Type} [DecidableEq κ] (d : List (κ × α)) (k k2 : κ) (v : α)
    (h : k ≠ k2) : dictGet (d ++ [(k, v)]) k2 = dictGet d k2 := by
  unfold dictGet
  rw [List.find?_append]
  rcases hf : d.find? (fun e => decide (e.1 = k2)) with _ | e
  · simp [hf, List.find?, h]
  · simp [hf]

theorem countP_key_zero {κ α : Type} [DecidableEq κ] (d : List (κ × α)) (k : κ)
    (h : dictGet d k = none) : d.countP (fun e => decide (e.1 = k)) = 0 := by
  rw [List.countP_eq_zero]
  intro e he
  unfold dictGet at h
  rcases hf : d.find? (fun e => decide (e.1 = k)) with _ | w
  · have := List.find?_eq_none.mp hf e he
    simpa using this
  · simp [hf] at h

/- ------------------------------------------------------------------ -/
/- Generic fold lemmas -/
/- ------------------------------------------------------------------ -/

theorem foldl_preserve {α β : Type} (P : α → Prop) (f : α → β → α)
    (hf : ∀ a b, P a → P (f a b)) :
    ∀ (l : List β) (a : α), P a → P (l.foldl f a) := by
  intro l
  induction l with
  | nil => intro a ha; simpa using ha
  | cons hd tl ih => intro a ha; exact ih (f a hd) (hf a hd ha)

theorem foldl_attain {α β : Type} (P : α → Prop) (f : α → β → α) (x : β)
    (hf : ∀ a b, P a → P (f a b)) (hx : ∀ a, P (f a x)) :
    ∀ (l : List β) (a : α), x ∈ l → P (l.foldl f a) := by
  intro l
  induction l with
  | nil => intro a hm; simp at hm
  | cons hd tl ih =>
    intro a hm
    rcases List.mem_cons.mp hm with he | he
    · subst he
      exact foldl_preserve P f hf tl (f a x) (hx a)
    · exact ih (f a hd) he

/- ------------------------------------------------------------------ -/
/- Graph-operation lemmas -/
/- ------------------------------------------------------------------ -/

theorem dictGet_append_left {κ α : Type} [DecidableEq κ] (d d2 : List (κ × α)) (k : κ) (w : α)
    (h : dictGet d k = some w) : dictGet (d ++ d2) k = some w := by
  unfold dictGet at h ⊢
  rw [List.find?_append]
  rcases hf : d.find? (fun e => decide (e.1 = k)) with _ | e
  · simp [hf] at h
  · simp [hf] at h ⊢
    exact h

theorem hasNode_addNode_self (g : DiGraph) (x : Value) (attrs : Attrs) :
    hasNode (addNode g x attrs) x = true := by
  unfold addNode
  rcases hg : dictGet g.nodes x with _ | old
  · simp only [hasNode]
    simp [dictGet_append_sing g.nodes x _ hg]
  · simp only [hasNode]
    simp [dictGet_dictSet_self]

theorem hasNode_addNode_mono (g : DiGraph) (x y : Value) (attrs : Attrs)
    (h : hasNode g y = true) : hasNode (addNode g x attrs) y = true := by
  unfold hasNode at h
  unfold addNode
  rcases hg : dictGet g.nodes x with _ | old
  · by_cases hxy : x = y
    · subst hxy
      rw [hg] at h
      simp at h
    · simp only [hasNode]
      simp [dictGet_append_sing_ne g.nodes x y _ hxy, h]
  · by_cases hxy : x = y
    · subst hxy
      simp only [hasNode]
      simp [dictGet_dictSet_self]
    · simp only [hasNode]
      simp [dictGet_dictSet_ne g.nodes x y _ hxy, h]

theorem dictGet_addNode_self (g : DiGraph) (x : Value) (attrs : Attrs) :
    dictGet (addNode g x attrs).nodes x =
      some (match dictGet g.nodes x with
            | some old => dictUpdate old attrs
            | none => attrs) := by
  unfold addNode
  rcases hg : dictGet g.nodes x with _ | old
  · simp [dictGet_append_sing g.nodes x _ hg]
  · simp [dictGet_dictSet_self]

theorem addNode_length_of_present (g : DiGraph) (x : Value) (attrs : Attrs)
    (h : hasNode g x = true) : (addNode g x attrs).nodes.length = g.nodes.length := by
  unfold hasNode at h
  unfold addNode
  rcases hg : dictGet g.nodes x with _ | old
  · rw [hg] at h; simp at h
  · simpa using length_dictSet g.nodes x _ (by simp [hg])

theorem addEdge_nodes_cases (g : DiGraph) (u v : Value) (attrs : Attrs) :
    (addEdge g u v attrs).nodes = g.nodes ∨
    (addEdge g u v attrs).nodes = g.nodes ++ [(u, [])] ∨
    (addEdge g u v attrs).nodes = g.nodes ++ [(v, [])] ∨
    (addEdge g u v attrs).nodes = (g.nodes ++ [(u, [])]) ++ [(v, [])] := by
  unfold addEdge
  by_cases hu : hasNode g u = true <;>
    simp only [hu, Bool.false_eq_true, if_true, if_false]
  · by_cases hv : hasNode g v = true <;>
      simp only [hv, Bool.false_eq_true, if_true, if_false]
    · rcases dictGet g.edges (u, v) with _ | old <;> simp
    · rcases dictGet (⟨g.nodes ++ [(v, [])], g.edges⟩ : DiGraph).edges (u, v) with _ | old <;> simp
  · by_cases hv : hasNode (⟨g.nodes ++ [(u, [])], g.edges⟩ : DiGraph) v = true <;>
      simp only [hv, Bool.false_eq_true, if_true, if_false]
    · rcases dictGet (⟨g.nodes ++ [(u, [])], g.edges⟩ : DiGraph).edges (u, v) with _ | old <;> simp
    · rcases dictGet (⟨(g.nodes ++ [(u, [])]) ++ [(v, [])], g.edges⟩ : DiGraph).edges (u, v) with
        _ | old <;> simp

theorem addEdge_nodes_mono (g : DiGraph) (u v y : Value) (attrs : Attrs)
    (h : hasNode g y = true) : hasNode (addEdge g u v attrs) y = true := by
  unfold hasNode at h ⊢
  rcases hw : dictGet g.nodes y with _ | w
  · rw [hw] at h; simp at h
  · rcases addEdge_nodes_cases g u v attrs with hc | hc | hc | hc <;> rw [hc]
    · simp [hw]
    · simp [dictGet_append_left _ _ _ _ hw]
    · simp [dictGet_append_left _ _ _ _ hw]
    · have h2 := dictGet_append_left _ [(v, ([] : Attrs))] _ _
        (dictGet_append_left _ [(u, ([] : Attrs))] _ _ hw)
      simp only [List.append_assoc] at h2
      simp only [List.singleton_append] at h2 ⊢
      simp [h2]

theorem addEdge_edges_self (g : DiGraph) (u v : Value) (attrs : Attrs) :
    dictGet (addEdge g u v attrs).edges (u, v) =
      some (match dictGet g.edges (u, v) with
            | some old => dictUpdate old attrs
            | none => attrs) := by
  unfold addEdge
  rcases hg : dictGet g.edges (u, v) with _ | old <;>
    by_cases hu : hasNode g u = true <;>
      simp only [hu, Bool.false_eq_true, if_true, if_false] <;>
        first
          | (by_cases hv : hasNode g v = true <;>
              simp only [hv, Bool.false_eq_true, if_true, if_false] <;>
                simp [hg, dictGet_append_sing, dictGet_dictSet_self])
          | (by_cases hv : hasNode (⟨g.nodes ++ [(u, [])], g.edges⟩ : DiGraph) v = true <;>
              simp only [hv, Bool.false_eq_true, if_true, if_false] <;>
                simp [hg, dictGet_append_sing, dictGet_dictSet_self])

theorem addEdge_edges_other (g : DiGraph) (u v s t : Value) (attrs : Attrs)
    (h : (u, v) ≠ (s, t)) :
    dictGet (addEdge g u v attrs).edges (s, t) = dictGet g.edges (s, t) := by
  unfold addEdge
  rcases hg : dictGet g.edges (u, v) with _ | old <;>
    by_cases hu : hasNode g u = true <;>
      simp only [hu, Bool.false_eq_true, if_true, if_false] <;>
        first
          | (by_cases hv : hasNode g v = true <;>
              simp only [hv, Bool.false_eq_true, if_true, if_false] <;>
                simp [hg, dictGet_append_sing_ne _ _ _ _ h, dictGet_dictSet_ne _ _ _ _ h])
          | (by_cases hv : hasNode (⟨g.nodes ++ [(u, [])], g.edges⟩ : DiGraph) v = true <;>
              simp only [hv, Bool.false_eq_true, if_true, if_false] <;>
                simp [hg, dictGet_append_sing_ne _ _ _ _ h, dictGet_dictSet_ne _ _ _ _ h])

theorem truthyNodes_addNode (g : DiGraph) (x : Value) (attrs : Attrs)
    (hx : pyTruthy x = true) (h : truthyNodes g) : truthyNodes (addNode g x attrs) := by
  unfold addNode
  rcases hg : dictGet g.nodes x with _ | old
  · intro e he
    simp only at he
    rcases List.mem_append.mp he with h2 | h2
    · exact h e h2
    · simp at h2
      simp [h2, hx]
  · intro e he
    simp only at he
    rcases mem_dictSet _ _ _ e he with h2 | h2
    · exact h e h2
    · simp [h2, hx]

theorem truthyNodes_addEdge (g : DiGraph) (u v : Value) (attrs : Attrs)
    (hu : pyTruthy u = true) (hv : pyTruthy v = true) (h : truthyNodes g) :
    truthyNodes (addEdge g u v attrs) := by
  have hstep : ∀ (d : List (Value × Attrs)) (z : Value), pyTruthy z = true →
      (∀ e ∈ d, pyTruthy e.1 = true) → ∀ e ∈ d ++ [(z, ([] : Attrs))], pyTruthy e.1 = true := by
    intro d z hz hd e he
    rcases List.mem_append.mp he with h2 | h2
    · exact hd e h2
    · simp at h2
      simp [h2, hz]
  intro e he
  rcases addEdge_nodes_cases g u v attrs with hc | hc | hc | hc <;> rw [hc] at he
  · exact h e he
  · exact hstep g.nodes u hu h e he
  · exact hstep g.nodes v hv h e he
  · exact hstep _ v hv (hstep g.nodes u hu h) e he

/- ------------------------------------------------------------------ -/
/- Node-phase and edge-phase lemmas -/
/- ------------------------------------------------------------------ -/

theorem applyNodeSpec_spec (payload : Value) (g : DiGraph) (am : AliasMap) (nspec : NodeSpec) :
    applyNodeSpec payload g am nspec = (g, am, none) ∨
    (∃ e, applyNodeSpec payload g am nspec = (g, am, some e)) ∨
    ∃ a, nspec.id = some a ∧
      pyTruthy (extractValue payload nspec.key) = true ∧
      pyHashable (extractValue payload nspec.key) = true ∧
      applyNodeSpec payload g am nspec =
        (addNode g (extractValue payload nspec.key) (nodeAttrsOf nspec payload a),
         dictSet am a (extractValue payload nspec.key), none) := by
  unfold applyNodeSpec
  rcases nspec.id with _ | a
  · left; rfl
  · by_cases h1 : a = "" ∨ pyTruthy (extractValue payload nspec.key) = false
    · left; simp [h1]
    · by_cases h2 : pyHashable (extractValue payload nspec.key) = false
      · right; left
        refine ⟨"TypeError: unhashable type", ?_⟩
        simp only [if_neg h1]
        simp [h2]
      · right; right
        have h1c := h1
        push_neg at h1c
        refine ⟨a, rfl, ?_, ?_, ?_⟩
        · simpa using h1c.2
        · simpa using h2
        · simp only [if_neg h1]
          simp [h2]

theorem applyNodeSpec_guarded (payload : Value) (g : DiGraph) (am : AliasMap) (nspec : NodeSpec)
    (a : String) (ha : nspec.id = some a) (hane : a ≠ "")
    (htr : pyTruthy (extractValue payload nspec.key) = true) :
    (pyHashable (extractValue payload nspec.key) = false ∧
      applyNodeSpec payload g am nspec = (g, am, some "TypeError: unhashable type")) ∨
    (pyHashable (extractValue payload nspec.key) = true ∧
      applyNodeSpec payload g am nspec =
        (addNode g (extractValue payload nspec.key) (nodeAttrsOf nspec payload a),
         dictSet am a (extractValue payload nspec.key), none)) := by
  have hguard : ¬(a = "" ∨ pyTruthy (extractValue payload nspec.key) = false) := by
    push_neg
    exact ⟨hane, by simp [htr]⟩
  unfold applyNodeSpec
  rcases hid : nspec.id with _ | a2
  · rw [hid] at ha; cases ha
  · rw [hid] at ha
    injection ha with ha2
    subst ha2
    by_cases h2 : pyHashable (extractValue payload nspec.key) = false
    · left
      refine ⟨h2, ?_⟩
      simp only [if_neg hguard]
      simp [h2]
    · right
      refine ⟨by simpa using h2, ?_⟩
      simp only [if_neg hguard]
      simp [h2]

theorem runNodeSpecs_hasNode_mono (payload : Value) (specs : List NodeSpec) :
    ∀ (g : DiGraph) (am : AliasMap) (y : Value), hasNode g y = true →
      hasNode (runNodeSpecs payload specs g am).1 y = true := by
  induction specs with
  | nil => intro g am y h; simpa [runNodeSpecs] using h
  | cons nspec rest ih =>
    intro g am y h
    simp only [runNodeSpecs]
    rcases applyNodeSpec_spec payload g am nspec with hs | ⟨e, hs⟩ | ⟨a, _, _, _, hs⟩ <;>
      rw [hs]
    · exact ih g am y h
    · simpa using h
    · exact ih _ _ y (hasNode_addNode_mono g _ y _ h)

theorem runNodeSpecs_am_hasNode (payload : Value) (specs : List NodeSpec) :
    ∀ (g : DiGraph) (am : AliasMap),
      (∀ e ∈ am, hasNode g e.2 = true) →
      ∀ e ∈ (runNodeSpecs payload specs g am).2.1,
        hasNode (runNodeSpecs payload specs g am).1 e.2 = true := by
  induction specs with
  | nil => intro g am h e he; simp only [runNodeSpecs] at he ⊢; exact h e he
  | cons nspec rest ih =>
    intro g am h e he
    simp only [runNodeSpecs] at he ⊢
    rcases applyNodeSpec_spec payload g am nspec with hs | ⟨e2, hs⟩ | ⟨a, _, _, _, hs⟩ <;>
      rw [hs] at he ⊢
    · exact ih g am h e he
    · exact h e he
    · refine ih _ _ ?_ e he
      intro e2 he2
      rcases mem_dictSet _ _ _ e2 he2 with h2 | h2
      · exact hasNode_addNode_mono g _ _ _ (h e2 h2)
      · rw [h2]
        exact hasNode_addNode_self g _ _

theorem runNodeSpecs_adds (payload : Value) (specs : List NodeSpec) :
    ∀ (g : DiGraph) (am : AliasMap),
      (runNodeSpecs payload specs g am).2.2 = none →
      ∀ nspec ∈ specs, ∀ a, nspec.id = some a → a ≠ "" →
        pyTruthy (extractValue payload nspec.key) = true →
        hasNode (runNodeSpecs payload specs g am).1 (extractValue payload nspec.key) = true := by
  induction specs with
  | nil => intro g am _ nspec hm; simp at hm
  | cons nspec0 rest ih =>
    intro g am hnone nspec hm a ha hane htr
    simp only [runNodeSpecs] at hnone ⊢
    rcases List.mem_cons.mp hm with he | he
    · subst he
      rcases applyNodeSpec_guarded payload g am nspec a ha hane htr with ⟨_, heq⟩ | ⟨_, heq⟩
      · rw [heq] at hnone ⊢
        simp at hnone
      · rw [heq] at hnone ⊢
        exact runNodeSpecs_hasNode_mono payload rest _ _ _ (hasNode_addNode_self g _ _)
    · rcases applyNodeSpec_spec payload g am nspec0 with hs | ⟨e2, hs⟩ | ⟨a2, _, _, _, hs⟩ <;>
        rw [hs] at hnone ⊢
      · exact ih g am hnone nspec he a ha hane htr
      · simp at hnone
      · exact ih _ _ hnone nspec he a ha hane htr

theorem truthyNodes_runNodeSpecs (payload : Value) (specs : List NodeSpec) :
    ∀ (g : DiGraph) (am : AliasMap), truthyNodes g →
      truthyNodes (runNodeSpecs payload specs g am).1 := by
  induction specs with
  | nil => intro g am h; simpa [runNodeSpecs] using h
  | cons nspec rest ih =>
    intro g am h
    simp only [runNodeSpecs]
    rcases applyNodeSpec_spec payload g am nspec with hs | ⟨e, hs⟩ | ⟨a, _, htr, _, hs⟩ <;>
      rw [hs]
    · exact ih g am h
    · exact h
    · exact ih _ _ (truthyNodes_addNode g _ _ htr h)

theorem applyEdgeSpec_hasNode_mono (payload : Value) (am : AliasMap) (g : DiGraph)
    (espec : EdgeSpec) (y : Value) (h : hasNode g y = true) :
    hasNode (applyEdgeSpec payload am g espec) y = true := by
  simp only [applyEdgeSpec]
  by_cases hempty : resolveEndpoint payload g am espec.source espec.sourceKey = [] ∨
      resolveEndpoint payload g am espec.target espec.targetKey = []
  · simp only [if_pos hempty]
    exact h
  · simp only [if_neg hempty]
    refine foldl_preserve (fun gg => hasNode gg y = true) _ ?_ _ g h
    intro gacc s hacc
    refine foldl_preserve (fun gg => hasNode gg y = true) _ ?_ _ gacc hacc
    intro gacc2 t hacc2
    by_cases hc : (pyTruthy s && pyTruthy t) = true
    · simp only [if_pos hc]
      exact addEdge_nodes_mono _ _ _ _ _ hacc2
    · simp only [if_neg hc]
      exact hacc2

theorem applyEdgeSpec_truthyNodes (payload : Value) (am : AliasMap) (g : DiGraph)
    (espec : EdgeSpec) (h : truthyNodes g) : truthyNodes (applyEdgeSpec payload am g espec) := by
  simp only [applyEdgeSpec]
  by_cases hempty : resolveEndpoint payload g am espec.source espec.sourceKey = [] ∨
      resolveEndpoint payload g am espec.target espec.targetKey = []
  · simp only [if_pos hempty]
    exact h
  · simp only [if_neg hempty]
    refine foldl_preserve truthyNodes _ ?_ _ g h
    intro gacc s hacc
    refine foldl_preserve truthyNodes _ ?_ _ gacc hacc
    intro gacc2 t hacc2
    by_cases hc : (pyTruthy s && pyTruthy t) = true
    · simp only [if_pos hc]
      rcases (show pyTruthy s = true ∧ pyTruthy t = true by simpa using hc) with ⟨hc1, hc2⟩
      exact truthyNodes_addEdge _ _ _ _ hc1 hc2 hacc2
    · simp only [if_neg hc]
      exact hacc2

theorem updateGraph_hasNode_mono (g : DiGraph) (gspec : GraphSpec) (payload : Value) (y : Value)
    (h : hasNode g y = true) : hasNode (updateGraph g gspec payload).1 y = true := by
  unfold updateGraph
  rcases hrun : runNodeSpecs payload gspec.nodes g [] with ⟨g1, am, oe⟩
  have h1 : hasNode g1 y = true := by
    have h2 := runNodeSpecs_hasNode_mono payload gspec.nodes g [] y h
    rw [hrun] at h2
    exact h2
  cases oe
  · simp only
    exact foldl_preserve (fun gg => hasNode gg y = true) (applyEdgeSpec payload am)
      (fun a b ha => applyEdgeSpec_hasNode_mono payload am a b y ha) gspec.edges g1 h1
  · simpa using h1

theorem updateGraph_am_hasNode (g : DiGraph) (gspec : GraphSpec) (payload : Value)
    (g1 : DiGraph) (am : AliasMap) (h : updateGraph g gspec payload = (g1, am, none)) :
    ∀ e ∈ am, hasNode g1 e.2 = true := by
  unfold updateGraph at h
  rcases hrun : runNodeSpecs payload gspec.nodes g [] with ⟨g2, am2, oe⟩
  rw [hrun] at h
  cases oe
  · simp only [Prod.mk.injEq] at h
    obtain ⟨hg1, ham, _⟩ := h
    intro e he
    have hbase := runNodeSpecs_am_hasNode payload gspec.nodes g [] (by intro e2 he2; simp at he2)
      e (by rw [hrun]; simp only; rw [ham]; exact he)
    rw [hrun] at hbase
    simp only at hbase
    rw [← hg1]
    exact foldl_preserve (fun gg => hasNode gg e.2 = true) (applyEdgeSpec payload am2)
      (fun a b ha => applyEdgeSpec_hasNode_mono payload am2 a b e.2 ha) gspec.edges g2 hbase
  · simp at h

theorem updateGraph_adds (g : DiGraph) (gspec : GraphSpec) (payload : Value)
    (h : (updateGraph g gspec payload).2.2 = none) :
    ∀ nspec ∈ gspec.nodes, ∀ a, nspec.id = some a → a ≠ "" →
      pyTruthy (extractValue payload nspec.key) = true →
      hasNode (updateGraph g gspec payload).1 (extractValue payload nspec.key) = true := by
  intro nspec hm a ha hane htr
  unfold updateGraph at h ⊢
  rcases hrun : runNodeSpecs payload gspec.nodes g [] with ⟨g2, am2, oe⟩
  rw [hrun] at h
  cases oe
  · have hbase := runNodeSpecs_adds payload gspec.nodes g [] (by rw [hrun]) nspec hm a ha hane htr
    rw [hrun] at hbase
    simp only at hbase ⊢
    exact foldl_preserve (fun gg => hasNode gg (extractValue payload nspec.key) = true)
      (applyEdgeSpec payload am2)
      (fun x b hx => applyEdgeSpec_hasNode_mono payload am2 x b _ hx) gspec.edges g2 hbase
  · simp at h

theorem truthyNodes_updateGraph (g : DiGraph) (gspec : GraphSpec) (payload : Value)
    (h : truthyNodes g) : truthyNodes (updateGraph g gspec payload).1 := by
  unfold updateGraph
  rcases hrun : runNodeSpecs payload gspec.nodes g [] with ⟨g1, am, oe⟩
  have h1 : truthyNodes g1 := by
    have h2 := truthyNodes_runNodeSpecs payload gspec.nodes g [] h
    rw [hrun] at h2
    exact h2
  cases oe
  · simp only
    exact foldl_preserve truthyNodes (applyEdgeSpec payload am)
      (fun a b ha => applyEdgeSpec_truthyNodes payload am a b ha) gspec.edges g1 h1
  · simpa using h1

theorem buildText_of_unresolved (fields : List String) (payload : Value)
    (h : ∀ f ∈ fields, extractValue payload (some f) = Value.null) :
    buildText fields payload = "" := by
  unfold buildText
  have h2 : fields.filterMap (fun field =>
      match extractValue payload (some field) with
      | .null => none
      | .list xs => some (jsonDumps (.list xs))
      | .dict kvs => some (jsonDumps (.dict kvs))
      | v => some (pyStr v)) = [] := by
    rw [List.filterMap_eq_nil_iff]
    intro f hf
    rw [h f hf]
  rw [h2]
  rfl

theorem addEdge_edges_eq (g : DiGraph) (u v : Value) (attrs : Attrs) :
    (addEdge g u v attrs).edges =
      match dictGet g.edges (u, v) with
      | some old => dictSet g.edges (u, v) (dictUpdate old attrs)
      | none => g.edges ++ [((u, v), attrs)] := by
  unfold addEdge
  rcases hg : dictGet g.edges (u, v) with _ | old <;>
    by_cases hu : hasNode g u = true <;>
      simp only [hu, Bool.false_eq_true, if_true, if_false] <;>
        first
          | (by_cases hv : hasNode g v = true <;>
              simp only [hv, Bool.false_eq_true, if_true, if_false] <;> simp [hg])
          | (by_cases hv : hasNode (⟨g.nodes ++ [(u, [])], g.edges⟩ : DiGraph) v = true <;>
              simp only [hv, Bool.false_eq_true, if_true, if_false] <;> simp [hg])

/- ------------------------------------------------------------------ -/
/- Claim theorems -/
/- ------------------------------------------------------------------ -/

/-- C6: the distance-to-similarity conversion used by retrieval equals
`clamp(1 - d/2, 0, 1)`: distance 0 gives 1, distance 1 gives 1/2,
distance 2 gives 0, any distance above 2 (such as 4) is clamped to 0, the
result always lies in [0, 1], and both evolutions of the engine
(`Memcore.retrieve` and `MemKappa._distance_to_similarity`) compute the
same function. -/
theorem similarity_is_clamped :
    (∀ d : Rat, distanceToSimilarity (some d) = some (max 0 (min 1 (1 - d / 2)))) ∧
    (∀ d : Option Rat, memcoreSimilarity d = distanceToSimilarity d) ∧
    distanceToSimilarity (some 0) = some 1 ∧
    distanceToSimilarity (some 1) = some (1 / 2) ∧
    distanceToSimilarity (some 2) = some 0 ∧
    distanceToSimilarity (some 4) = some 0 ∧
    (∀ d : Rat, 2 < d → distanceToSimilarity (some d) = some 0) ∧
    (∀ d s : Rat, distanceToSimilarity (some d) = some s → 0 ≤ s ∧ s ≤ 1) := by
  refine ⟨fun d => rfl, fun d => by cases d <;> rfl,
    by norm_num [distanceToSimilarity],
    by norm_num [distanceToSimilarity],
    by norm_num [distanceToSimilarity],
    by norm_num [distanceToSimilarity], ?_, ?_⟩
  · intro d hd
    show some (max 0 (min 1 (1 - d / 2))) = some 0
    have h1 : 1 - d / 2 < 0 := by linarith
    rw [min_eq_right (by linarith : 1 - d / 2 ≤ 1)]
    rw [max_eq_left h1.le]
  · intro d s hs
    have hs2 : some (max 0 (min 1 (1 - d / 2))) = some s := hs
    have h2 : s = max 0 (min 1 (1 - d / 2)) := (Option.some.injEq _ _ ▸ hs2).symm
    constructor
    · rw [h2]; exact le_max_left 0 _
    · rw [h2]
      exact max_le (by norm_num) (min_le_left 1 _)

/-- Witness for C6 at the concrete distances 4 (clamped to 0) and the
bounds of the resulting similarity. -/
theorem similarity_is_clamped_witness :
    distanceToSimilarity (some 4) = some 0 ∧ ((0 : Rat) ≤ 0 ∧ (0 : Rat) ≤ 1) :=
  ⟨similarity_is_clamped.2.2.2.2.2.1,
   similarity_is_clamped.2.2.2.2.2.2.2 4 0
     (similarity_is_clamped.2.2.2.2.2.2.1 4 (by norm_num))⟩

/-- C9: dot-path extraction is a total function of the payload and the
path: a missing or empty path yields None, a None current value stops the
walk with None, a non-dict current value at a remaining segment stops the
walk with None, a missing segment continues the walk on None (hence ends
in None), the walk decomposes over path concatenation, and the three
concrete spec examples all return None.  The Lean model is a total
function, mirroring the try/except in `_extract_value` that prevents any
exception from escaping. -/
theorem extract_value_total :
    (∀ payload : Value, extractValue payload none = Value.null) ∧
    (∀ payload : Value, extractValue payload (some "") = Value.null) ∧
    (∀ ps : List String, extractWalk Value.null ps = Value.null) ∧
    (∀ (v : Value) (s : String) (rest : List String), isDictV v = false →
      extractWalk v (s :: rest) = Value.null) ∧
    (∀ (kvs : List (String × Value)) (s : String) (rest : List String), dictGet kvs s = none →
      extractWalk (Value.dict kvs) (s :: rest) = extractWalk Value.null rest) ∧
    (∀ (v : Value) (a b : List String), extractWalk v (a ++ b) = extractWalk (extractWalk v a) b) ∧
    extractValue (Value.dict []) (some "a.b.c") = Value.null ∧
    extractValue (Value.dict [("a", Value.int 1)]) (some "a.b") = Value.null ∧
    extractValue Value.null (some "a") = Value.null := by
  have hnull : ∀ ps : List String, extractWalk Value.null ps = Value.null := by
    intro ps; cases ps <;> rfl
  have hscalar : ∀ (v : Value) (s : String) (rest : List String), isDictV v = false →
      extractWalk v (s :: rest) = Value.null := by
    intro v s rest hv
    cases v <;> simp [isDictV] at hv ⊢ <;> rfl
  refine ⟨fun _ => rfl, fun _ => rfl, hnull, hscalar, ?_, ?_, by decide, by decide, by decide⟩
  · intro kvs s rest h
    simp only [extractWalk, h, Option.getD_none]
  · intro v a
    induction a generalizing v with
    | nil => intro b; cases v <;> rfl
    | cons s rest ih =>
      intro b
      cases v with
      | null => rw [hnull]; simp only [List.cons_append, extractWalk]; rw [hnull]
      | dict kvs => simp only [List.cons_append, extractWalk]; exact ih _ b
      | bool bb => simp only [List.cons_append, extractWalk]; rw [hnull]
      | int n => simp only [List.cons_append, extractWalk]; rw [hnull]
      | str s2 => simp only [List.cons_append, extractWalk]; rw [hnull]
      | rat q => simp only [List.cons_append, extractWalk]; rw [hnull]
      | list xs => simp only [List.cons_append, extractWalk]; rw [hnull]

/-- Witness for C9 instantiating the conditional clauses at concrete
inputs: a scalar intermediate value and a missing segment. -/
theorem extract_value_total_witness :
    extractWalk (Value.int 7) ["a"] = Value.null ∧
    extractWalk (Value.dict [("b", Value.int 1)]) ["a", "c"] = extractWalk Value.null ["c"] ∧
    extractWalk (Value.dict []) (["a"] ++ ["b"]) =
      extractWalk (extractWalk (Value.dict []) ["a"]) ["b"] :=
  ⟨extract_value_total.2.2.2.1 (Value.int 7) "a" [] rfl,
   extract_value_total.2.2.2.2.1 [("b", Value.int 1)] "a" ["c"] rfl,
   extract_value_total.2.2.2.2.2.1 (Value.dict []) ["a"] ["b"]⟩

/-- C1 counterexample: with a loaded table holding only the ingestor
`note`, calling `ingest` with the unregistered name `other` produces a
raised exception (`Except.error`, modelling the `raise ValueError` at the
top of `MemKappa.ingest`), not a structured error value returned to the
caller, so the claim that the error is returned rather than raised is
false on the code.  The stores are indeed left unchanged (no effect is
emitted and the state is returned as it was). -/
theorem unknown_ingestor_raises_cex :
    (ingest envNote stEmpty "other" (Value.dict []) "u").1 =
      Except.error "Ingestor other is not defined for sem" ∧
    (ingest envNote stEmpty "other" (Value.dict []) "u").2.1 = stEmpty ∧
    (ingest envNote stEmpty "other" (Value.dict []) "u").2.2 = [] :=
  ⟨rfl, rfl, rfl⟩

/-- C1 (amended): for every ingest call whose ingestor name is not
registered in the loaded ingestor table, `ingest` raises a ValueError
(modelled as `Except.error`) before performing any mutation, leaving both
the graph store and the vector index unchanged and emitting no effect. -/
theorem ingest_unknown_ingestor_raises (env : Env) (st : MemState) (ingestor : String)
    (payload : Value) (uuid : String) (h : dictGet env.ingestors ingestor = none) :
    ingest env st ingestor payload uuid =
      (Except.error ("Ingestor " ++ ingestor ++ " is not defined for " ++ env.ns), st, []) := by
  unfold ingest
  rw [h]

/-- Witness for the amended C1 at a concrete unregistered name. -/
theorem ingest_unknown_ingestor_raises_witness :
    ingest envNote stEmpty "other" (Value.dict []) "u" =
      (Except.error ("Ingestor " ++ "other" ++ " is not defined for " ++ envNote.ns),
       stEmpty, []) :=
  ingest_unknown_ingestor_raises envNote stEmpty "other" (Value.dict []) "u" (by decide)

/-- C3 counterexample: the graph is an `nx.DiGraph`, so two edges between
the same (source, target) pair with different labels cannot coexist.
Running `_update_graph` twice on the pre-existing nodes a and b, first
with label A and then with label B, leaves exactly one stored edge whose
label is B: the earlier label A has been overwritten, refuting the claim
that both labelled edges coexist after ingestion. -/
theorem edge_labels_overwrite_cex :
    (updateGraph (updateGraph graphAB (labelSpec "A") payloadST).1
        (labelSpec "B") payloadST).1.edges =
      [((Value.str "a", Value.str "b"), [("label", Value.str "B")])] ∧
    (updateGraph (updateGraph graphAB (labelSpec "A") payloadST).1
        (labelSpec "B") payloadST).1.edges.length = 1 :=
  ⟨by decide, by decide⟩

/-- C3 (amended): the graph stores at most one edge per (source, target)
pair.  Re-adding an existing (source, target, label) triple is an exact
no-op on the whole graph; adding an edge over an existing pair overwrites
the stored label attribute in place and leaves the number of stored edges
unchanged (so edges with different labels never coexist on one pair). -/
theorem edge_add_noop_and_overwrite :
    (∀ (g : DiGraph) (u v : Value) (l : String),
      hasNode g u = true → hasNode g v = true →
      dictGet g.edges (u, v) = some [("label", Value.str l)] →
      addEdge g u v [("label", Value.str l)] = g) ∧
    (∀ (g : DiGraph) (u v : Value) (l2 : String) (attrs : Attrs),
      dictGet g.edges (u, v) = some attrs →
      dictGet (addEdge g u v [("label", Value.str l2)]).edges (u, v) =
        some (dictSet attrs "label" (Value.str l2))) ∧
    (∀ (g : DiGraph) (u v : Value) (l2 : String) (attrs : Attrs),
      dictGet g.edges (u, v) = some attrs →
      (addEdge g u v [("label", Value.str l2)]).edges.length = g.edges.length) := by
  refine ⟨?_, ?_, ?_⟩
  · intro g u v l hu hv hget
    unfold addEdge
    simp only [hu, hv, if_true]
    rw [hget]
    show DiGraph.mk g.nodes
      (dictSet g.edges (u, v)
        (dictUpdate [("label", Value.str l)] [("label", Value.str l)])) = g
    have hupd : dictUpdate [("label", Value.str l)] [("label", Value.str l)] =
        [("label", Value.str l)] := rfl
    rw [hupd, dictSet_of_get_eq g.edges (u, v) _ hget]
  · intro g u v l2 attrs hget
    rw [addEdge_edges_eq, hget]
    show dictGet (dictSet g.edges (u, v) (dictUpdate attrs [("label", Value.str l2)])) (u, v) =
      some (dictSet attrs "label" (Value.str l2))
    rw [dictGet_dictSet_self]
    rfl
  · intro g u v l2 attrs hget
    rw [addEdge_edges_eq, hget]
    show (dictSet g.edges (u, v) (dictUpdate attrs [("label", Value.str l2)])).length =
      g.edges.length
    exact length_dictSet g.edges (u, v) _ (by simp [hget])

/-- Witness for the amended C3: re-adding the stored triple (a, b, A) on a
concrete two-node graph is a no-op. -/
theorem edge_add_noop_and_overwrite_witness :
    addEdge
      ⟨[(Value.str "a", []), (Value.str "b", [])],
       [((Value.str "a", Value.str "b"), [("label", Value.str "A")])]⟩
      (Value.str "a") (Value.str "b") [("label", Value.str "A")] =
    ⟨[(Value.str "a", []), (Value.str "b", [])],
     [((Value.str "a", Value.str "b"), [("label", Value.str "A")])]⟩ :=
  edge_add_noop_and_overwrite.1
    ⟨[(Value.str "a", []), (Value.str "b", [])],
     [((Value.str "a", Value.str "b"), [("label", Value.str "A")])]⟩
    (Value.str "a") (Value.str "b") "A" (by decide) (by decide) (by decide)

/-- C4 counterexample: a payload whose node key path resolves to the
falsy (but not None, hence resolved) value of the empty string.  With no
text field resolving, `ingest` does return the graph-only sentinel and
adds no vector record, but the node spec whose key resolved is NOT in the
graph afterwards (`if not alias or not node_id` skips falsy ids), so the
last conjunct of the claim is false as stated. -/
theorem graph_only_falsy_key_cex :
    extractValue (Value.dict [("k", Value.str "")]) (some "k") = Value.str "" ∧
    (ingest envNote stEmpty "note" (Value.dict [("k", Value.str "")]) "u").1 =
      Except.ok "graph_only_entry:unknown" ∧
    (ingest envNote stEmpty "note" (Value.dict [("k", Value.str "")]) "u").2.1.graph.nodes = [] :=
  ⟨by decide, rfl, by decide⟩

/-- C4 (amended): for every payload in which zero configured text fields
resolve, `ingest` returns the graph-only sentinel instead of a memory id,
adds no record to the vector index (the only emitted effect is the graph
save), and every NodeSpec whose alias is set and whose key dot-path
resolved to a truthy value is present in the graph store afterwards (a
key resolving to a falsy value such as the empty string is skipped, as is
a node spec without an alias). -/
theorem graph_only_entry_amended (env : Env) (st : MemState) (ingestor : String)
    (payload : Value) (uuid : String) (spec : IngestorSpec)
    (hspec : dictGet env.ingestors ingestor = some spec)
    (htext : ∀ f ∈ spec.vector.textFields, extractValue payload (some f) = Value.null)
    (hok : (updateGraph st.graph spec.graph payload).2.2 = none) :
    (∃ tail, (ingest env st ingestor payload uuid).1 =
      Except.ok ("graph_only_entry:" ++ tail)) ∧
    (ingest env st ingestor payload uuid).2.1.vector = st.vector ∧
    (ingest env st ingestor payload uuid).2.2 =
      [Effect.saveGraph (ingest env st ingestor payload uuid).2.1.graph] ∧
    (∀ nspec ∈ spec.graph.nodes, ∀ a, nspec.id = some a → a ≠ "" →
      pyTruthy (extractValue payload nspec.key) = true →
      hasNode (ingest env st ingestor payload uuid).2.1.graph
        (extractValue payload nspec.key) = true) := by
  rcases hupd : updateGraph st.graph spec.graph payload with ⟨g1, gm, oe⟩
  have hoe : oe = none := by
    have h2 := hok
    rw [hupd] at h2
    simpa using h2
  subst hoe
  have htb := buildText_of_unresolved spec.vector.textFields payload htext
  have hing : ingest env st ingestor payload uuid =
      (Except.ok ("graph_only_entry:" ++ sentinelTail gm),
       { st with graph := g1 }, [Effect.saveGraph g1]) := by
    simp only [ingest, hspec, hupd, htb, if_true]
  refine ⟨⟨_, by rw [hing]⟩, by rw [hing], by rw [hing], ?_⟩
  intro nspec hm a ha hane htr
  have hh := updateGraph_adds st.graph spec.graph payload hok nspec hm a ha hane htr
  rw [hupd] at hh
  simp only at hh
  rw [hing]
  exact hh

/-- Witness for the amended C4 at a concrete payload whose node key
resolves to the truthy id N1 while the only text field is unresolved. -/
theorem graph_only_entry_amended_witness :
    (∃ tail, (ingest envNote stEmpty "note" (Value.dict [("k", Value.str "N1")]) "u").1 =
      Except.ok ("graph_only_entry:" ++ tail)) ∧
    (ingest envNote stEmpty "note" (Value.dict [("k", Value.str "N1")]) "u").2.1.vector =
      stEmpty.vector ∧
    (ingest envNote stEmpty "note" (Value.dict [("k", Value.str "N1")]) "u").2.2 =
      [Effect.saveGraph
        (ingest envNote stEmpty "note" (Value.dict [("k", Value.str "N1")]) "u").2.1.graph] ∧
    (∀ nspec ∈ specNote.graph.nodes, ∀ a, nspec.id = some a → a ≠ "" →
      pyTruthy (extractValue (Value.dict [("k", Value.str "N1")]) nspec.key) = true →
      hasNode (ingest envNote stEmpty "note" (Value.dict [("k", Value.str "N1")]) "u").2.1.graph
        (extractValue (Value.dict [("k", Value.str "N1")]) nspec.key) = true) :=
  graph_only_entry_amended envNote stEmpty "note" (Value.dict [("k", Value.str "N1")]) "u"
    specNote (by decide) (by decide) (by decide)

/-- C2: within every single ingest call, the graph snapshot save (done by
`_update_graph` before `ingest` continues) precedes any vector-index
write: the effect trace of `ingest` is either empty (an exception before
the save), or a single graph save, or a graph save followed by exactly one
vector add; in the last case the stored record carries a `graph_nodes`
metadata field that is the serialization of an alias-to-id map whose ids
all exist in the saved graph (which is also the final in-memory graph),
and it is the one record appended to the collection. -/
theorem ingest_graph_before_vector (env : Env) (st : MemState) (ingestor : String)
    (payload : Value) (uuid : String) :
    (ingest env st ingestor payload uuid).2.2 = [] ∨
    (ingest env st ingestor payload uuid).2.2 =
      [Effect.saveGraph (ingest env st ingestor payload uuid).2.1.graph] ∨
    ∃ record gm,
      (ingest env st ingestor payload uuid).2.2 =
        [Effect.saveGraph (ingest env st ingestor payload uuid).2.1.graph,
         Effect.vectorAdd record] ∧
      dictGet record.metadata "graph_nodes" =
        some (Value.str (jsonDumps (Value.dict gm))) ∧
      (∀ e ∈ gm, hasNode (ingest env st ingestor payload uuid).2.1.graph e.2 = true) ∧
      (ingest env st ingestor payload uuid).2.1.vector = st.vector ++ [record] := by
  rcases hspec : dictGet env.ingestors ingestor with _ | spec
  · left
    simp [ingest, hspec]
  · rcases hupd : updateGraph st.graph spec.graph payload with ⟨g1, gm, oe⟩
    cases oe with
    | some e =>
      left
      simp [ingest, hspec, hupd]
    | none =>
      by_cases htb : buildText spec.vector.textFields payload = ""
      · right; left
        simp [ingest, hspec, hupd, htb]
      · rcases hemb : env.embed (buildText spec.vector.textFields payload) with e | emb
        · right; left
          simp [ingest, hspec, hupd, htb, hemb]
        · right; right
          refine ⟨⟨"mem_" ++ env.ns ++ "_" ++ uuid, emb,
              dictSet (buildMetadata spec.vector.metadata payload env.ns) "graph_nodes"
                (Value.str (jsonDumps (Value.dict gm)))⟩, gm, ?_, ?_, ?_, ?_⟩
          · simp [ingest, hspec, hupd, htb, hemb]
          · exact dictGet_dictSet_self _ _ _
          · intro e he
            have hh := updateGraph_am_hasNode st.graph spec.graph payload g1 gm hupd e he
            have hgraph : (ingest env st ingestor payload uuid).2.1.graph = g1 := by
              simp [ingest, hspec, hupd, htb, hemb]
            rw [hgraph]
            exact hh
          · simp [ingest, hspec, hupd, htb, hemb]

/-- Witness for C2 at a concrete text-bearing ingest call. -/
theorem ingest_graph_before_vector_witness :
    (ingest envNote stEmpty "note" (Value.dict [("t", Value.str "x")]) "u").2.2 = [] ∨
    (ingest envNote stEmpty "note" (Value.dict [("t", Value.str "x")]) "u").2.2 =
      [Effect.saveGraph
        (ingest envNote stEmpty "note" (Value.dict [("t", Value.str "x")]) "u").2.1.graph] ∨
    ∃ record gm,
      (ingest envNote stEmpty "note" (Value.dict [("t", Value.str "x")]) "u").2.2 =
        [Effect.saveGraph
          (ingest envNote stEmpty "note" (Value.dict [("t", Value.str "x")]) "u").2.1.graph,
         Effect.vectorAdd record] ∧
      dictGet record.metadata "graph_nodes" =
        some (Value.str (jsonDumps (Value.dict gm))) ∧
      (∀ e ∈ gm,
        hasNode (ingest envNote stEmpty "note"
          (Value.dict [("t", Value.str "x")]) "u").2.1.graph e.2 = true) ∧
      (ingest envNote stEmpty "note" (Value.dict [("t", Value.str "x")]) "u").2.1.vector =
        stEmpty.vector ++ [record] :=
  ingest_graph_before_vector envNote stEmpty "note" (Value.dict [("t", Value.str "x")]) "u"

theorem addNode_eq_of_get_none (g : DiGraph) (x : Value) (attrs : Attrs)
    (h : dictGet g.nodes x = none) :
    addNode g x attrs = ⟨g.nodes ++ [(x, attrs)], g.edges⟩ := by
  unfold addNode
  rw [h]

theorem addNode_eq_of_get_some (g : DiGraph) (x : Value) (attrs old : Attrs)
    (h : dictGet g.nodes x = some old) :
    addNode g x attrs = ⟨dictSet g.nodes x (dictUpdate old attrs), g.edges⟩ := by
  unfold addNode
  rw [h]

theorem countP_key_dictSet {κ α : Type} [DecidableEq κ] (d : List (κ × α)) (k k2 : κ) (v : α)
    (h : (dictGet d k).isSome) :
    (dictSet d k v).countP (fun e => decide (e.1 = k2)) =
      d.countP (fun e => decide (e.1 = k2)) := by
  have hk := keys_dictSet d k v h
  have h1 : ∀ (l : List (κ × α)), l.countP (fun e => decide (e.1 = k2)) =
      (l.map Prod.fst).countP (fun kk => decide (kk = k2)) := by
    intro l
    rw [List.countP_map]
    rfl
  rw [h1, h1, hk]

theorem updateGraph_single_node (g : DiGraph) (nspec : NodeSpec) (p : Value) (a : String)
    (x : Value) (ha : nspec.id = some a) (hane : a ≠ "") (hx : extractValue p nspec.key = x)
    (htr : pyTruthy x = true) (hh : pyHashable x = true) :
    updateGraph g ⟨[nspec], []⟩ p = (addNode g x (nodeAttrsOf nspec p a), [(a, x)], none) := by
  rcases applyNodeSpec_guarded p g [] nspec a ha hane (by rw [hx]; exact htr) with
    ⟨hf, _⟩ | ⟨_, heq⟩
  · rw [hx, hh] at hf
    cases hf
  · unfold updateGraph
    simp only [runNodeSpecs, heq, hx]
    rfl

/-- C8: node upsert is idempotent on identity: starting from any graph
not yet containing the id, running the node phase on two payloads that
both resolve the same node id leaves exactly one node entry with that id,
the attribute maps merged (dict update of the first projection by the
second), and the graph node count is unchanged by the second call. -/
theorem node_upsert_idempotent (g : DiGraph) (nspec : NodeSpec) (p1 p2 : Value) (a : String)
    (x : Value) (ha : nspec.id = some a) (hane : a ≠ "")
    (h1 : extractValue p1 nspec.key = x) (h2 : extractValue p2 nspec.key = x)
    (htr : pyTruthy x = true) (hh : pyHashable x = true)
    (hfresh : dictGet g.nodes x = none) :
    (updateGraph (updateGraph g ⟨[nspec], []⟩ p1).1 ⟨[nspec], []⟩ p2).1.nodes.countP
      (fun e => decide (e.1 = x)) = 1 ∧
    (updateGraph (updateGraph g ⟨[nspec], []⟩ p1).1 ⟨[nspec], []⟩ p2).1.nodes.length =
      (updateGraph g ⟨[nspec], []⟩ p1).1.nodes.length ∧
    dictGet (updateGraph (updateGraph g ⟨[nspec], []⟩ p1).1 ⟨[nspec], []⟩ p2).1.nodes x =
      some (dictUpdate (nodeAttrsOf nspec p1 a) (nodeAttrsOf nspec p2 a)) := by
  have e1 := updateGraph_single_node g nspec p1 a x ha hane h1 htr hh
  rw [e1]
  simp only
  have hr1 : addNode g x (nodeAttrsOf nspec p1 a) =
      ⟨g.nodes ++ [(x, nodeAttrsOf nspec p1 a)], g.edges⟩ :=
    addNode_eq_of_get_none g x _ hfresh
  have hget1 : dictGet (addNode g x (nodeAttrsOf nspec p1 a)).nodes x =
      some (nodeAttrsOf nspec p1 a) := by
    rw [hr1]
    exact dictGet_append_sing g.nodes x _ hfresh
  have e2 := updateGraph_single_node (addNode g x (nodeAttrsOf nspec p1 a)) nspec p2 a x
    ha hane h2 htr hh
  rw [e2]
  simp only
  have hr2 : addNode (addNode g x (nodeAttrsOf nspec p1 a)) x (nodeAttrsOf nspec p2 a) =
      ⟨dictSet (addNode g x (nodeAttrsOf nspec p1 a)).nodes x
        (dictUpdate (nodeAttrsOf nspec p1 a) (nodeAttrsOf nspec p2 a)),
       (addNode g x (nodeAttrsOf nspec p1 a)).edges⟩ :=
    addNode_eq_of_get_some _ x _ _ hget1
  rw [hr2]
  refine ⟨?_, ?_, ?_⟩
  · rw [show (⟨dictSet (addNode g x (nodeAttrsOf nspec p1 a)).nodes x
        (dictUpdate (nodeAttrsOf nspec p1 a) (nodeAttrsOf nspec p2 a)),
        (addNode g x (nodeAttrsOf nspec p1 a)).edges⟩ : DiGraph).nodes =
      dictSet (addNode g x (nodeAttrsOf nspec p1 a)).nodes x
        (dictUpdate (nodeAttrsOf nspec p1 a) (nodeAttrsOf nspec p2 a)) from rfl]
    rw [countP_key_dictSet _ _ _ _ (by simp [hget1])]
    rw [hr1]
    simp only
    rw [List.countP_append]
    rw [countP_key_zero g.nodes x hfresh]
    simp
  · simp only
    exact length_dictSet _ _ _ (by simp [hget1])
  · simp only
    exact dictGet_dictSet_self _ _ _

/-- Witness for C8 at the concrete id RSI ingested twice from the empty
graph. -/
theorem node_upsert_idempotent_witness :
    (updateGraph
        (updateGraph emptyGraph ⟨[⟨some "n", some "k", some "T", []⟩], []⟩
          (Value.dict [("k", Value.str "RSI")])).1
        ⟨[⟨some "n", some "k", some "T", []⟩], []⟩
        (Value.dict [("k", Value.str "RSI")])).1.nodes.countP
      (fun e => decide (e.1 = Value.str "RSI")) = 1 ∧
    (updateGraph
        (updateGraph emptyGraph ⟨[⟨some "n", some "k", some "T", []⟩], []⟩
          (Value.dict [("k", Value.str "RSI")])).1
        ⟨[⟨some "n", some "k", some "T", []⟩], []⟩
        (Value.dict [("k", Value.str "RSI")])).1.nodes.length =
      (updateGraph emptyGraph ⟨[⟨some "n", some "k", some "T", []⟩], []⟩
        (Value.dict [("k", Value.str "RSI")])).1.nodes.length ∧
    dictGet
      (updateGraph
        (updateGraph emptyGraph ⟨[⟨some "n", some "k", some "T", []⟩], []⟩
          (Value.dict [("k", Value.str "RSI")])).1
        ⟨[⟨some "n", some "k", some "T", []⟩], []⟩
        (Value.dict [("k", Value.str "RSI")])).1.nodes (Value.str "RSI") =
      some (dictUpdate
        (nodeAttrsOf ⟨some "n", some "k", some "T", []⟩ (Value.dict [("k", Value.str "RSI")]) "n")
        (nodeAttrsOf ⟨some "n", some "k", some "T", []⟩
          (Value.dict [("k", Value.str "RSI")]) "n")) :=
  node_upsert_idempotent emptyGraph ⟨some "n", some "k", some "T", []⟩
    (Value.dict [("k", Value.str "RSI")]) (Value.dict [("k", Value.str "RSI")]) "n"
    (Value.str "RSI") rfl (by decide) (by decide) (by decide) (by decide) (by decide) (by decide)

/-- C10: the graph-only sentinel and real memory ids are syntactically
disjoint.  An ingest whose text blob is empty returns the string
`graph_only_entry:` followed by the id recorded for the first alias of
the call (or the literal `unknown` when no alias was recorded), a
text-bearing ingest with a working embedder returns `mem_<namespace>_`
followed by the supplied fresh uuid, and no string of the first form
equals a string of the second form, so a caller can distinguish the two
outcomes from the return value alone. -/
theorem sentinel_and_memid_disjoint :
    (∀ (env : Env) (st : MemState) (ingestor : String) (payload : Value) (uuid : String)
        (spec : IngestorSpec) (g1 : DiGraph) (gm : AliasMap),
      dictGet env.ingestors ingestor = some spec →
      updateGraph st.graph spec.graph payload = (g1, gm, none) →
      buildText spec.vector.textFields payload = "" →
      (ingest env st ingestor payload uuid).1 =
        Except.ok ("graph_only_entry:" ++ sentinelTail gm)) ∧
    (∀ (env : Env) (st : MemState) (ingestor : String) (payload : Value) (uuid : String)
        (spec : IngestorSpec) (g1 : DiGraph) (gm : AliasMap) (emb : Emb),
      dictGet env.ingestors ingestor = some spec →
      updateGraph st.graph spec.graph payload = (g1, gm, none) →
      buildText spec.vector.textFields payload ≠ "" →
      env.embed (buildText spec.vector.textFields payload) = Except.ok emb →
      (ingest env st ingestor payload uuid).1 =
        Except.ok ("mem_" ++ env.ns ++ "_" ++ uuid)) ∧
    sentinelTail [] = "unknown" ∧
    (∀ (e0 : String × Value) (rest : AliasMap), sentinelTail (e0 :: rest) = pyStr e0.2) ∧
    (∀ (ns uuid tail : String),
      ("mem_" ++ ns ++ "_" ++ uuid) ≠ ("graph_only_entry:" ++ tail)) := by
  refine ⟨?_, ?_, rfl, fun e0 rest => rfl, ?_⟩
  · intro env st ingestor payload uuid spec g1 gm hspec hupd htb
    simp [ingest, hspec, hupd, htb]
  · intro env st ingestor payload uuid spec g1 gm emb hspec hupd htb hemb
    simp [ingest, hspec, hupd, htb, hemb]
  · intro ns uuid tail h
    have hd := congrArg String.data h
    simp only [String.data_append] at hd
    simp at hd

/-- Witness for C10 at a concrete graph-only ingest and a concrete
text-bearing ingest in the same environment. -/
theorem sentinel_and_memid_disjoint_witness :
    (ingest envNote stEmpty "note" (Value.dict [("k", Value.str "N1")]) "u").1 =
      Except.ok ("graph_only_entry:" ++ sentinelTail [("n", Value.str "N1")]) ∧
    (ingest envNote stEmpty "note" (Value.dict [("t", Value.str "x")]) "u").1 =
      Except.ok ("mem_" ++ envNote.ns ++ "_" ++ "u") ∧
    ("mem_" ++ "sem" ++ "_" ++ "u") ≠ ("graph_only_entry:" ++ "N1") :=
  ⟨sentinel_and_memid_disjoint.1 envNote stEmpty "note" (Value.dict [("k", Value.str "N1")])
      "u" specNote
      (updateGraph stEmpty.graph specNote.graph (Value.dict [("k", Value.str "N1")])).1
      [("n", Value.str "N1")] (by decide) (by decide) (by decide),
   sentinel_and_memid_disjoint.2.1 envNote stEmpty "note" (Value.dict [("t", Value.str "x")])
      "u" specNote
      (updateGraph stEmpty.graph specNote.graph (Value.dict [("t", Value.str "x")])).1
      [] [1] (by decide) (by decide) (by decide) rfl,
   sentinel_and_memid_disjoint.2.2.2.2 "sem" "u" "N1"⟩

theorem mem_ite_list {α : Type} (p : Prop) [Decidable p] (w y : α)
    (hy : y ∈ (if p then [w] else [])) : p ∧ y = w := by
  by_cases hp : p
  · rw [if_pos hp] at hy
    simp at hy
    exact ⟨hp, hy⟩
  · rw [if_neg hp] at hy
    simp at hy

theorem truthyNodes_hasNode (g : DiGraph) (y : Value) (hg : truthyNodes g)
    (hy : hasNode g y = true) : pyTruthy y = true := by
  unfold hasNode dictGet at hy
  rcases hf : g.nodes.find? (fun e => decide (e.1 = y)) with _ | e
  · rw [hf] at hy
    simp at hy
  · have hmem := List.mem_of_find?_eq_some hf
    have hkey : e.1 = y := by simpa using List.find?_some hf
    rw [← hkey]
    exact hg e hmem

theorem applyEdgeSpec_skip (payload : Value) (am : AliasMap) (g : DiGraph) (espec : EdgeSpec)
    (h : resolveEndpoint payload g am espec.source espec.sourceKey = [] ∨
      resolveEndpoint payload g am espec.target espec.targetKey = []) :
    applyEdgeSpec payload am g espec = g := by
  simp only [applyEdgeSpec]
  rw [if_pos h]

theorem resolveEndpoint_key_hasNode (payload : Value) (g : DiGraph) (am : AliasMap)
    (kp : String) (y : Value) (hy : y ∈ resolveEndpoint payload g am none (some kp)) :
    hasNode g y = true := by
  simp only [resolveEndpoint] at hy
  generalize extractValue payload (some kp) = v at hy
  cases v <;>
    first
      | (rcases List.mem_filter.mp hy with ⟨_, h2⟩
         exact h2)
      | (rcases mem_ite_list _ _ _ hy with ⟨hc, hyw⟩
         rw [hyw]
         simp only [Bool.and_eq_true] at hc
         exact hc.2)

/-- C7: edge endpoint resolution of `_update_graph`: a `source_key` (or
symmetrically `target_key`, which goes through the same resolution
function) keeps only ids already present in the graph, list and scalar
alike; the edge is skipped entirely when either resolved set is empty, in
particular when a `source` alias was never populated; otherwise every
truthy (source, target) pair of the Cartesian product carries exactly one
edge with the configured label afterwards (the edge dict is keyed by the
pair, so no duplicate can be created); node-id truthiness is an invariant
the engine maintains, so resolved ids are truthy in engine states; and
the concrete fan-out scenario of three pre-existing sources and one new
target yields exactly the three labelled edges. -/
theorem edge_spec_resolution :
    (∀ (payload : Value) (g : DiGraph) (am : AliasMap) (kp : String) (y : Value),
      y ∈ resolveEndpoint payload g am none (some kp) → hasNode g y = true) ∧
    (∀ (payload : Value) (g : DiGraph) (am : AliasMap) (kp : String) (y : Value),
      truthyNodes g → y ∈ resolveEndpoint payload g am none (some kp) →
      pyTruthy y = true) ∧
    (∀ (payload : Value) (am : AliasMap) (g : DiGraph) (espec : EdgeSpec),
      resolveEndpoint payload g am espec.source espec.sourceKey = [] ∨
      resolveEndpoint payload g am espec.target espec.targetKey = [] →
      applyEdgeSpec payload am g espec = g) ∧
    (∀ (payload : Value) (am : AliasMap) (g : DiGraph) (espec : EdgeSpec) (a2 : String),
      espec.source = some a2 → dictGet am a2 = none →
      applyEdgeSpec payload am g espec = g) ∧
    (∀ (payload : Value) (am : AliasMap) (g : DiGraph) (espec : EdgeSpec) (s t : Value),
      s ∈ resolveEndpoint payload g am espec.source espec.sourceKey →
      t ∈ resolveEndpoint payload g am espec.target espec.targetKey →
      pyTruthy s = true → pyTruthy t = true →
      ∃ attrs, dictGet (applyEdgeSpec payload am g espec).edges (s, t) = some attrs ∧
        dictGet attrs "label" = some (Value.str (espec.label.getD "RELATED_TO"))) ∧
    (∀ (g : DiGraph) (gspec : GraphSpec) (payload : Value),
      truthyNodes g → truthyNodes (updateGraph g gspec payload).1) ∧
    (updateGraph graphABC fanoutSpec fanoutPayload).1.edges =
      [((Value.str "a", Value.str "x"), [("label", Value.str "USES")]),
       ((Value.str "b", Value.str "x"), [("label", Value.str "USES")]),
       ((Value.str "c", Value.str "x"), [("label", Value.str "USES")])] := by
  refine ⟨resolveEndpoint_key_hasNode, ?_, applyEdgeSpec_skip, ?_, ?_,
    truthyNodes_updateGraph, by decide⟩
  · intro payload g am kp y hg hy
    exact truthyNodes_hasNode g y hg (resolveEndpoint_key_hasNode payload g am kp y hy)
  · intro payload am g espec a2 hsrc hget
    refine applyEdgeSpec_skip payload am g espec (Or.inl ?_)
    rw [hsrc]
    simp only [resolveEndpoint, hget]
  · intro payload am g espec s t hs ht htrs htrt
    simp only [applyEdgeSpec]
    rw [if_neg (by
      push_neg
      exact ⟨List.ne_nil_of_mem hs, List.ne_nil_of_mem ht⟩)]
    have hset : ∀ gg : DiGraph,
        ∃ attrs, dictGet (addEdge gg s t
            [("label", Value.str (espec.label.getD "RELATED_TO"))]).edges (s, t) = some attrs ∧
          dictGet attrs "label" = some (Value.str (espec.label.getD "RELATED_TO")) := by
      intro gg
      have hself := addEdge_edges_self gg s t
        [("label", Value.str (espec.label.getD "RELATED_TO"))]
      rcases hold : dictGet gg.edges (s, t) with _ | old
      · rw [hold] at hself
        exact ⟨_, hself, by
          show dictGet [("label", Value.str (espec.label.getD "RELATED_TO"))] "label" = _
          rfl⟩
      · rw [hold] at hself
        refine ⟨_, hself, ?_⟩
        show dictGet (dictUpdate old [("label", Value.str (espec.label.getD "RELATED_TO"))])
          "label" = _
        show dictGet (dictSet old "label" (Value.str (espec.label.getD "RELATED_TO")))
          "label" = _
        exact dictGet_dictSet_self _ _ _
    have hpres : ∀ (gg : DiGraph) (s2 t2 : Value),
        (∃ attrs, dictGet gg.edges (s, t) = some attrs ∧
          dictGet attrs "label" = some (Value.str (espec.label.getD "RELATED_TO"))) →
        ∃ attrs, dictGet (addEdge gg s2 t2
            [("label", Value.str (espec.label.getD "RELATED_TO"))]).edges (s, t) = some attrs ∧
          dictGet attrs "label" = some (Value.str (espec.label.getD "RELATED_TO")) := by
      intro gg s2 t2 hP
      by_cases hpair : (s2, t2) = (s, t)
      · simp only [Prod.mk.injEq] at hpair
        obtain ⟨hs2, ht2⟩ := hpair
        subst hs2
        subst ht2
        exact hset gg
      · rcases hP with ⟨attrs, h1a, h2a⟩
        exact ⟨attrs, by rw [addEdge_edges_other gg s2 t2 s t _ hpair]; exact h1a, h2a⟩
    set lbl := espec.label.getD "RELATED_TO" with hlbl
    refine foldl_attain
      (fun gg => ∃ attrs, dictGet gg.edges (s, t) = some attrs ∧
        dictGet attrs "label" = some (Value.str lbl))
      (fun gAcc s2 => (resolveEndpoint payload g am espec.target espec.targetKey).foldl
        (fun gAcc2 t2 => if pyTruthy s2 && pyTruthy t2 then
          addEdge gAcc2 s2 t2 [("label", Value.str lbl)] else gAcc2) gAcc)
      s ?_ ?_ _ g hs
    · intro a b hPa
      dsimp only
      refine foldl_preserve
        (fun gg => ∃ attrs, dictGet gg.edges (s, t) = some attrs ∧
          dictGet attrs "label" = some (Value.str lbl))
        (fun gAcc2 t2 => if pyTruthy b && pyTruthy t2 then
          addEdge gAcc2 b t2 [("label", Value.str lbl)] else gAcc2)
        ?_ _ a hPa
      intro a2 b2 hPa2
      dsimp only
      by_cases hc : (pyTruthy b && pyTruthy b2) = true
      · rw [if_pos hc]
        exact hpres a2 b b2 hPa2
      · rw [if_neg hc]
        exact hPa2
    · intro a
      dsimp only
      refine foldl_attain
        (fun gg => ∃ attrs, dictGet gg.edges (s, t) = some attrs ∧
          dictGet attrs "label" = some (Value.str lbl))
        (fun gAcc2 t2 => if pyTruthy s && pyTruthy t2 then
          addEdge gAcc2 s t2 [("label", Value.str lbl)] else gAcc2)
        t ?_ ?_ _ a ht
      · intro a2 b2 hPa2
        dsimp only
        by_cases hc : (pyTruthy s && pyTruthy b2) = true
        · rw [if_pos hc]
          exact hpres a2 s b2 hPa2
        · rw [if_neg hc]
          exact hPa2
      · intro a2
        dsimp only
        rw [if_pos (by rw [htrs, htrt]; rfl)]
        exact hset a2

/-- Witness for C7: a concrete edge spec whose source alias was never
populated is dropped, leaving the graph unchanged. -/
theorem edge_spec_resolution_witness :
    applyEdgeSpec payloadST [] graphAB ⟨some "L", some "missing", none, none, none⟩ = graphAB :=
  edge_spec_resolution.2.2.2.1 payloadST [] graphAB
    ⟨some "L", some "missing", none, none, none⟩ "missing" rfl rfl

theorem foldlM_except_ok {α β : Type} (f : α → β → Except String α) (l : List β)
    (hf : ∀ a b, b ∈ l → ∃ a2, f a b = Except.ok a2) :
    ∀ a, ∃ a2, l.foldlM f a = Except.ok a2 := by
  induction l with
  | nil => intro a; exact ⟨a, rfl⟩
  | cons hd tl ih =>
    intro a
    rcases hf a hd (by simp) with ⟨a2, ha2⟩
    rcases ih (fun x b hb => hf x b (by simp [hb])) a2 with ⟨a3, ha3⟩
    refine ⟨a3, ?_⟩
    rw [List.foldlM_cons, ha2]
    exact ha3

theorem buildGraphContext_ok (g : DiGraph) (kvs : List (String × Value))
    (h : ∀ e ∈ kvs, pyHashable e.2 = true) :
    ∃ ctx, buildGraphContext g (Value.dict kvs) = Except.ok (Value.dict ctx) := by
  have h2 := foldlM_except_ok
    (fun ctx (e : String × Value) =>
      if pyHashable e.2 = false then Except.error "TypeError: unhashable type"
      else if hasNode g e.2 then Except.ok (dictSet ctx e.1 (contextEntry g e.2))
      else Except.ok ctx) kvs
    (by
      intro a b hb
      dsimp only
      rw [if_neg (by rw [h b hb]; simp)]
      by_cases hn : hasNode g b.2 = true
      · exact ⟨_, by rw [if_pos hn]⟩
      · exact ⟨_, by rw [if_neg hn]⟩)
  rcases h2 [] with ⟨ctx, hctx⟩
  refine ⟨ctx, ?_⟩
  show (kvs.foldlM (fun ctx (e : String × Value) =>
      if pyHashable e.2 = false then Except.error "TypeError: unhashable type"
      else if hasNode g e.2 then Except.ok (dictSet ctx e.1 (contextEntry g e.2))
      else Except.ok ctx) ([] : List (String × Value))).map Value.dict =
    Except.ok (Value.dict ctx)
  rw [hctx]
  rfl

theorem retrieveLoop_ok (env : Env) (g : DiGraph) (results : QueryResult)
    (mrow : List Metadata) (hm : results.metadatas[0]? = some mrow)
    (hmw : ∀ m ∈ mrow, ∃ kvs, decodeGraphNodes env.jsonLoads m = Value.dict kvs ∧
      ∀ e ∈ kvs, pyHashable e.2 = true) :
    ∀ (rest : List String) (idx : Nat), idx + rest.length ≤ mrow.length →
      (∀ drows, results.distances = some drows →
        ∃ drow, drows[0]? = some drow ∧ idx + rest.length ≤ drow.length) →
      (results.distances = none → idx + rest.length ≤ 1) →
      ∃ vs, retrieveLoop env g results idx rest = Except.ok vs := by
  intro rest
  induction rest with
  | nil => intro idx _ _ _; exact ⟨[], rfl⟩
  | cons mid tl ih =>
    intro idx hlen hdist hnone
    have hm1 : pyIndex results.metadatas 0 = Except.ok mrow := by
      unfold pyIndex; rw [hm]
    have hidx : idx < mrow.length := by
      simp only [List.length_cons] at hlen; omega
    have hm2 : pyIndex mrow idx = Except.ok mrow[idx] := by
      unfold pyIndex
      rw [List.getElem?_eq_getElem hidx]
    rcases hmw mrow[idx] (mrow.getElem_mem hidx) with ⟨kvs, hdec, hhash⟩
    rcases buildGraphContext_ok g kvs hhash with ⟨ctx, hctx⟩
    have hdistEq : ∃ dv, ((match results.distances with
        | some drows =>
          match pyIndex drows 0 with
          | Except.error e => Except.error e
          | Except.ok drow => pyIndex drow idx
        | none => pyIndex ([none] : List (Option Rat)) idx) :
        Except String (Option Rat)) = Except.ok dv := by
      rcases hd : results.distances with _ | drows
      · have h1 := hnone hd
        simp only [List.length_cons] at h1
        have h0 : idx = 0 := by omega
        subst h0
        exact ⟨none, rfl⟩
      · rcases hdist drows hd with ⟨drow, hd0, hdlen⟩
        have hp0 : pyIndex drows 0 = Except.ok drow := by unfold pyIndex; rw [hd0]
        have hidx2 : idx < drow.length := by
          simp only [List.length_cons] at hdlen; omega
        refine ⟨drow[idx], ?_⟩
        simp only [hd, hp0]
        unfold pyIndex
        rw [List.getElem?_eq_getElem hidx2]
    rcases hdistEq with ⟨dv, hdv⟩
    have hrest : ∃ vs2, retrieveLoop env g results (idx + 1) tl = Except.ok vs2 := by
      refine ih (idx + 1) ?_ ?_ ?_
      · simp only [List.length_cons] at hlen; omega
      · intro drows hd
        rcases hdist drows hd with ⟨drow, hd0, hdlen⟩
        exact ⟨drow, hd0, by simp only [List.length_cons] at hdlen; omega⟩
      · intro hd
        have h1 := hnone hd
        simp only [List.length_cons] at h1; omega
    rcases hrest with ⟨vs2, hvs2⟩
    refine ⟨Value.dict
      [("memory_id", Value.str mid),
       ("metadata", Value.dict mrow[idx]),
       ("graph_context", Value.dict ctx),
       ("similarity_score",
         match distanceToSimilarity dv with
         | none => Value.null
         | some q => Value.rat q)] :: vs2, ?_⟩
    simp only [retrieveLoop, hm1, hm2, hdec, hctx, hdv, hvs2]

/-- C5 counterexample: with an embedding capability that always throws,
a text-bearing `ingest` call propagates the exception to the caller
(`Except.error`), rather than catching it and returning a structured
error value; the graph had already been updated and saved when the
exception escaped.  This refutes the claim for the ingest half of
"(ingest or retrieve)": only retrieve guards the embedding call. -/
theorem ingest_embedding_failure_cex :
    (ingest envBoom stEmpty "note" (Value.dict [("t", Value.str "x")]) "u").1 =
      Except.error "boom" ∧
    (ingest envBoom stEmpty "note" (Value.dict [("t", Value.str "x")]) "u").2.2 =
      [Effect.saveGraph
        (ingest envBoom stEmpty "note" (Value.dict [("t", Value.str "x")]) "u").2.1.graph] :=
  ⟨rfl, rfl⟩

/-- C5 (amended): an embedding (or vector-store query) failure during
`retrieve` is caught and surfaced to the caller as a structured
`{error: message}` dict, never as an exception, and under well-formed
query results `retrieve` returns either a match list or the empty dict;
during `ingest`, however, an embedding failure is NOT caught: it
propagates to the caller as a raised exception, after the graph store was
already updated and saved. -/
theorem embedding_failure_handling :
    (∀ (env : Env) (g : DiGraph) (task : String) (n : Nat) (e : String),
      env.embed task = Except.error e →
      retrieve env g task n =
        Except.ok (Value.dict
          [("error", Value.str ("Error querying vector store: " ++ e))])) ∧
    (∀ (env : Env) (g : DiGraph) (task : String) (n : Nat) (e : String) (emb : Emb),
      env.embed task = Except.ok emb → env.query emb n = Except.error e →
      retrieve env g task n =
        Except.ok (Value.dict
          [("error", Value.str ("Error querying vector store: " ++ e))])) ∧
    (∀ (env : Env) (st : MemState) (ingestor : String) (payload : Value) (uuid : String)
        (spec : IngestorSpec) (g1 : DiGraph) (gm : AliasMap) (e : String),
      dictGet env.ingestors ingestor = some spec →
      updateGraph st.graph spec.graph payload = (g1, gm, none) →
      buildText spec.vector.textFields payload ≠ "" →
      env.embed (buildText spec.vector.textFields payload) = Except.error e →
      ingest env st ingestor payload uuid =
        (Except.error e, ⟨g1, st.vector⟩, [Effect.saveGraph g1])) ∧
    (∀ (env : Env) (g : DiGraph) (task : String) (n : Nat) (emb : Emb)
        (results : QueryResult),
      env.embed task = Except.ok emb → env.query emb n = Except.ok results →
      queryWf env results →
      ∃ v, retrieve env g task n = Except.ok v ∧
        (v = Value.dict [] ∨ ∃ ms, v = Value.dict [("matches", Value.list ms)])) := by
  refine ⟨?_, ?_, ?_, ?_⟩
  · intro env g task n e hembed
    have hq : (do
        let emb2 ← env.embed task
        env.query emb2 n : Except String QueryResult) = Except.error e := by
      rw [hembed]
      rfl
    simp only [retrieve, hq]
  · intro env g task n e emb hembed hquery
    have hq : (do
        let emb2 ← env.embed task
        env.query emb2 n : Except String QueryResult) = Except.error e := by
      rw [hembed]
      show env.query emb n = Except.error e
      exact hquery
    simp only [retrieve, hq]
  · intro env st ingestor payload uuid spec g1 gm e hspec hupd htb hemb
    simp [ingest, hspec, hupd, htb, hemb]
  · intro env g task n emb results hembed hquery hwf
    have hq : (do
        let emb2 ← env.embed task
        env.query emb2 n : Except String QueryResult) = Except.ok results := by
      rw [hembed]
      show env.query emb n = Except.ok results
      exact hquery
    rcases hids : results.ids with _ | ⟨ids0, restIds⟩
    · refine ⟨Value.dict [], ?_, Or.inl rfl⟩
      simp only [retrieve, hq, hids]
    · have hwf2 := hwf ids0 (by rw [hids]; simp)
      rcases hwf2 with ⟨mrow, hm, hlen, hmw, hdist, hnone⟩
      rcases retrieveLoop_ok env g results mrow hm hmw ids0 0
          (by simpa using hlen)
          (by intro drows hd
              rcases hdist drows hd with ⟨drow, hd0, hdlen⟩
              exact ⟨drow, hd0, by simpa using hdlen⟩)
          (by intro hd; simpa using hnone hd) with ⟨vs, hvs⟩
      refine ⟨Value.dict [("matches", Value.list vs)], ?_, Or.inr ⟨vs, rfl⟩⟩
      simp only [retrieve, hq, hids, hvs]
      rfl

/-- Witness for the amended C5: the always-throwing embedder makes
`retrieve` return the structured error dict. -/
theorem embedding_failure_handling_witness :
    retrieve envBoom emptyGraph "q" 1 =
      Except.ok (Value.dict
        [("error", Value.str ("Error querying vector store: " ++ "boom"))]) :=
  embedding_failure_handling.1 envBoom emptyGraph "q" 1 "boom" rfl

end Kappa
